import Mathlib

/-!
# Sorbet driver (`main/realmain.cc`): strictness ladder, exit status, pass
sequencing and the autogen fan-out/fan-in

The definitions below are a shallow embedding of the functions of
`src/main/realmain.cc` (full build, `SORBET_REALMAIN_MIN` undefined).
`Exception::raise` is embedded as `Except.error` carrying the raised message.
-/

namespace Sorbet

/-! ## Strictness levels -/

/-- The enumerators of `core::StrictLevel` that `realmain.cc` and
`StrictLevel.cc` switch over. -/
inductive StrictLevel where
  | Internal
  | None
  | Ignore
  | False
  | True
  | Strict
  | Strong
  | Max
  | Autogenerated
  | Stdlib
  deriving DecidableEq, Repr

namespace StrictLevel

/-- Modelled from the spec: the rank of a level in the numeric order of
`core::StrictLevel`, whose declaration (`core/StrictLevel.h`) is not among the
sources. The spec puts the sentinels `internal`/`none` below the lowest real
level, the ladder `ignore < false < true < strict < strong` in the middle and
`max`/`autogenerated`/`stdlib` above the highest real level. -/
def toNat : StrictLevel → Nat
  | Internal => 0
  | None => 1
  | Ignore => 2
  | False => 3
  | True => 4
  | Strict => 5
  | Strong => 6
  | Max => 7
  | Autogenerated => 8
  | Stdlib => 9

instance : LT StrictLevel := ⟨fun a b => a.toNat < b.toNat⟩
instance : LE StrictLevel := ⟨fun a b => a.toNat ≤ b.toNat⟩
instance (a b : StrictLevel) : Decidable (a < b) := Nat.decLt a.toNat b.toNat
instance (a b : StrictLevel) : Decidable (a ≤ b) := Nat.decLe a.toNat b.toNat

/-- The real, requestable levels `ignore`, `false`, `true`, `strict`, `strong`. -/
def isReal : StrictLevel → Bool
  | Ignore | False | True | Strict | Strong => true
  | _ => false

/-- The sentinel levels `none`, `internal`, `max`, `autogenerated`, `stdlib`. -/
def isSentinel : StrictLevel → Bool
  | None | Internal | Max | Autogenerated | Stdlib => true
  | _ => false

/-- The smaller of two levels in the numeric order. -/
def min (a b : StrictLevel) : StrictLevel := if a ≤ b then a else b

end StrictLevel

deriving instance DecidableEq for Except

/-- The message every `Exception::raise` of the ladder functions carries. -/
def shouldNeverHappen : String := "Should never happen"

/-- Embedding of `levelMinusOne` (realmain.cc 94-111). -/
def levelMinusOne (level : StrictLevel) : Except String StrictLevel :=
  match level with
  | .Ignore => .ok .None
  | .False => .ok .Ignore
  | .True => .ok .False
  | .Strict => .ok .True
  | .Strong => .ok .Strict
  | .Max => .ok .Strong
  | _ => .error shouldNeverHappen

/-- Embedding of `levelToRecommendation` (realmain.cc 113-134). -/
def levelToRecommendation (level : StrictLevel) : Except String StrictLevel :=
  match level with
  | .Internal | .None => .error shouldNeverHappen
  | .Ignore | .False | .True | .Strict => .ok level
  | .Strong | .Max => .ok .Strict
  | .Autogenerated | .Stdlib => .error shouldNeverHappen

/-! ## Global state, options and the end of `realmain` -/

/-- What the driver reads and writes of a `core::GlobalState`: the critical
error flag behind `hadCriticalError()`, the autogen mode flag, the error queue
(diagnostics still queued and diagnostics already handed to the flusher) and
the count behind `totalErrors()`. -/
structure GlobalState where
  hadCriticalError : Bool := false
  runningUnderAutogen : Bool := false
  queued : List String := []
  flushed : List String := []
  totalErrors : Nat := 0
  deriving DecidableEq, Repr

/-- Modelled from the spec: `ErrorQueue::flushAllErrors` (`core/ErrorQueue.cc`
is not among the sources), the diagnostics sink's `flushAll()`: every queued
diagnostic is handed to the flusher, in queue order, and the queue is empty
afterwards. -/
def flushAllErrors (gs : GlobalState) : GlobalState :=
  { gs with flushed := gs.flushed ++ gs.queued, queued := [] }

/-- The `enabled` flags of the print options `runAutogen` consults. -/
structure PrinterConfig where
  Autogen : Bool := false
  DSLAnalysis : Bool := false
  AutogenMsgPack : Bool := false
  AutogenClasslist : Bool := false
  AutogenSubclasses : Bool := false
  AutogenAutoloader : Bool := false
  deriving DecidableEq, Repr

/-- The fields of `options::Options` that the modelled parts of `realmain`
read; `print` holds the `enabled` flags of the print options. -/
structure Options where
  storeState : String := ""
  forceHashing : Bool := false
  supressNonCriticalErrors : Bool := false
  autogenVersion : Int := 0
  print : PrinterConfig := {}
  metricsFile : String := ""
  deriving DecidableEq, Repr

/-- Embedding of the statement at realmain.cc 812-816, for a run that reaches
it. `returnCode` is the value of the global `returnCode` when line 812 is
reached; `gs` and `gsForMinimize` are the two `unique_ptr<core::GlobalState>`,
`none` for a null pointer. The result is the value of `returnCode` that line
832 returns. Whether a run reaches line 812 at all is the matter of
`realmainTail` below: with a null `gs` and a metrics file it does not. -/
def exitStatus (returnCode : Int) (gs gsForMinimize : Option GlobalState)
    (opts : Options) : Int :=
  match gs with
  | none => 10
  | some g =>
    if g.hadCriticalError ||
        (match gsForMinimize with
         | some m => m.hadCriticalError
         | none => false) then 10
    else if returnCode == 0 && decide (g.totalErrors > 0) && !opts.supressNonCriticalErrors then 1
    else returnCode

/-- The exit code of a run of `realmain` that reaches line 812: line 429 sets
`returnCode = 0` and no statement between lines 429 and 812 assigns it. -/
def realmainExitCode (gs gsForMinimize : Option GlobalState) (opts : Options) : Int :=
  exitStatus 0 gs gsForMinimize opts

/-! ## Pass sequencing of the batch driver (realmain.cc 628-677) -/

/-- The calls the batch driver makes between lines 628 and 677, as they are
recorded in the driver log. -/
inductive Step where
  | index
  | flush
  | cache
  | package
  | name
  | constantResolution
  | enterConfig
  | autogen
  | resolve
  | typecheck
  deriving DecidableEq, Repr

/-- The passes are collaborators outside `realmain.cc`; each is taken as an
arbitrary transformer of the global state. `suppressAutogenErrorClasses` stands
for the six `gs->suppressErrorClass` calls of lines 646-651. `runAutogen`
receives the global state by const reference and is recorded in the log
only. -/
structure Passes where
  index : GlobalState → GlobalState
  indexAndComputeFileHashes : GlobalState → GlobalState
  maybeCache : GlobalState → GlobalState
  suppressAutogenErrorClasses : GlobalState → GlobalState
  package : GlobalState → GlobalState
  name : GlobalState → GlobalState
  runConstantResolution : GlobalState → GlobalState
  enterConfig : GlobalState → GlobalState
  resolve : GlobalState → GlobalState
  typecheck : GlobalState → GlobalState

/-- Driver state: the global state and the log of calls made so far, oldest
first. -/
structure Driver where
  gs : GlobalState
  log : List Step := []

/-- One call of a pass: the pass transforms the global state and the call is
logged. -/
def Driver.invoke (s : Step) (f : GlobalState → GlobalState) (d : Driver) : Driver :=
  { gs := f d.gs, log := d.log ++ [s] }

/-- The statement `if (gs->hadCriticalError()) gs->errorQueue->flushAllErrors(*gs);`
that follows indexing, resolving and typechecking (lines 635, 669, 674). -/
def Driver.flushIfCritical (d : Driver) : Driver :=
  if d.gs.hadCriticalError then d.invoke .flush flushAllErrors else d

/-- Embedding of realmain.cc 628-638: indexing (alongside hashing when
`--store-state` or `forceHashing` asks for it), then the flush on a critical
error. -/
def indexStage (P : Passes) (opts : Options) (gs : GlobalState) : Driver :=
  let d : Driver := { gs := gs }
  let d :=
    if !opts.storeState.isEmpty || opts.forceHashing then
      d.invoke .index P.indexAndComputeFileHashes
    else
      d.invoke .index P.index
  d.flushIfCritical

/-- Embedding of realmain.cc 646-665, the autogen branch: the error classes
autogen silences, then package, name, constant resolution, `enterConfig` and
`runAutogen`. -/
def autogenStage (P : Passes) (d : Driver) : Driver :=
  let d := { d with gs := P.suppressAutogenErrorClasses d.gs }
  let d := d.invoke .package P.package
  let d := d.invoke .name P.name
  let d := d.invoke .constantResolution P.runConstantResolution
  let d := d.invoke .enterConfig P.enterConfig
  d.invoke .autogen id

/-- Embedding of realmain.cc 668-671: resolve, then the flush on a critical
error. -/
def resolveStage (P : Passes) (d : Driver) : Driver :=
  (d.invoke .resolve P.resolve).flushIfCritical

/-- Embedding of realmain.cc 672-676: typecheck, then the flush on a critical
error. -/
def typecheckStage (P : Passes) (d : Driver) : Driver :=
  (d.invoke .typecheck P.typecheck).flushIfCritical

/-- Embedding of realmain.cc 628-677: the index stage, caching, then either the
autogen branch or resolve and typecheck. -/
def runPasses (P : Passes) (opts : Options) (gs : GlobalState) : Driver :=
  let d := indexStage P opts gs
  let d := d.invoke .cache P.maybeCache
  if d.gs.runningUnderAutogen then
    autogenStage P d
  else
    typecheckStage P (resolveStage P d)

/-- The global state right after the indexing pass, before any flush. -/
def afterIndex (P : Passes) (opts : Options) (gs : GlobalState) : GlobalState :=
  if !opts.storeState.isEmpty || opts.forceHashing then P.indexAndComputeFileHashes gs
  else P.index gs

/-- The driver state in which line 641 tests `gs->runningUnderAutogen`. -/
def afterCache (P : Passes) (opts : Options) (gs : GlobalState) : Driver :=
  (indexStage P opts gs).invoke .cache P.maybeCache

/-- The passes of a log: its entries other than `flush`. -/
def passesOf (log : List Step) : List Step :=
  log.filter (fun s => s != .flush)

/-- The passes that follow indexing. -/
def Step.isLaterPass : Step → Bool
  | .package | .name | .constantResolution | .autogen | .resolve | .typecheck => true
  | _ => false

/-- A set of passes in which indexing records a critical error and queues one
diagnostic, and every other pass leaves the global state alone. -/
def criticalIndexPasses : Passes where
  index := fun gs => { gs with hadCriticalError := true, queued := gs.queued ++ ["internal error"] }
  indexAndComputeFileHashes := fun gs =>
    { gs with hadCriticalError := true, queued := gs.queued ++ ["internal error"] }
  maybeCache := id
  suppressAutogenErrorClasses := id
  package := id
  name := id
  runConstantResolution := id
  enterConfig := id
  resolve := id
  typecheck := id

/-- A set of passes in which resolving records a critical error and queues one
diagnostic, and every other pass leaves the global state alone. -/
def criticalResolvePasses : Passes where
  index := id
  indexAndComputeFileHashes := id
  maybeCache := id
  suppressAutogenErrorClasses := id
  package := id
  name := id
  runConstantResolution := id
  enterConfig := id
  resolve := fun gs =>
    { gs with hadCriticalError := true, queued := gs.queued ++ ["internal error"] }
  typecheck := id

/-! ## `runAutogen`: fan-out over worker closures, fan-in into `merged` -/

section Autogen

variable {α σ δ τ : Type}

/-- Embedding of `AutogenResult::Serialized` (realmain.cc 191-198). `σ` stands
for `autogen::Subclasses::Map` and `δ` for the DSL info map; a
default-constructed value has empty strings, an empty class list and no maps. -/
structure Serialized (σ δ : Type) where
  strval : String := ""
  msgpack : String := ""
  classlist : List String := []
  subclasses : Option σ := none
  dslInfo : Option δ := none
  deriving DecidableEq, Repr

/-- Embedding of `AutogenResult` (realmain.cc 190-202); `τ` stands for
`autogen::DefTree`. The thread-local `counters` belong to the metrics
collaborator and are left out. -/
structure AutogenResult (σ δ τ : Type) where
  prints : List (Nat × Serialized σ δ) := []
  defTree : τ
  deriving DecidableEq, Repr

/-- The collaborators of `runAutogen` that live outside `realmain.cc`, taken as
parameters: the file predicates `isPackage` and `isRBI`, the renderers of the
`ParsedFile` that `Autogen::generate` builds from a tree of type `α`, the
definition tree operations and the two constants of `AutogenVersion`. -/
structure AutogenOps (α σ δ τ : Type) where
  isPackage : α → Bool
  isRBI : α → Bool
  toString : α → Int → String
  toMsgpack : α → Int → String
  listAllClasses : α → List String
  listAllSubclasses : α → Option σ
  dslInfo : α → δ
  emptyDefTree : τ
  addParsedFileDefinitions : τ → α → τ
  merge : τ → τ → τ
  MAX_VERSION : Int
  VERSION_INCLUDE_RBI : Int

/-- Line 230: `opts.autogenVersion == 0 ? MAX_VERSION : opts.autogenVersion`. -/
def autogenVersion (A : AutogenOps α σ δ τ) (opts : Options) : Int :=
  if opts.autogenVersion == 0 then A.MAX_VERSION else opts.autogenVersion

/-- The worker-local filter of lines 238-243: the job is skipped with
`continue` for a package file, and for an RBI file under an autogen version
below `VERSION_INCLUDE_RBI`. -/
def skipsJob (A : AutogenOps α σ δ τ) (opts : Options) (tree : α) : Bool :=
  if A.isPackage tree then true
  else if decide (autogenVersion A opts < A.VERSION_INCLUDE_RBI) && A.isRBI tree then true
  else false

/-- Lines 249-278: the `Serialized` value built for one file that passed the
filter, each field populated only when its print option is enabled, the class
list and the subclasses map only for a file that is not an RBI file. -/
def serializeFile (A : AutogenOps α σ δ τ) (opts : Options) (tree : α) : Serialized σ δ :=
  let serialized : Serialized σ δ := {}
  let serialized :=
    if opts.print.Autogen then
      { serialized with strval := A.toString tree (autogenVersion A opts) }
    else serialized
  let serialized :=
    if opts.print.DSLAnalysis then { serialized with dslInfo := some (A.dslInfo tree) }
    else serialized
  let serialized :=
    if opts.print.AutogenMsgPack then
      { serialized with msgpack := A.toMsgpack tree (autogenVersion A opts) }
    else serialized
  if !A.isRBI tree then
    let serialized :=
      if opts.print.AutogenClasslist then
        { serialized with classlist := A.listAllClasses tree }
      else serialized
    if opts.print.AutogenSubclasses then
      { serialized with subclasses := A.listAllSubclasses tree }
    else serialized
  else serialized

/-- Lines 279-282: the file is added to the worker's definition tree when it is
not an RBI file and the autoloader output is enabled. -/
def addToDefTree (A : AutogenOps α σ δ τ) (opts : Options) (defTree : τ) (tree : α) : τ :=
  if !A.isRBI tree && opts.print.AutogenAutoloader then
    A.addParsedFileDefinitions defTree tree
  else defTree

/-- One iteration of the worker loop (lines 235-286) for the index `idx` that
`try_pop` returned: `++n` first, then the filter, then serialization and
`out.prints.emplace_back`. The state is the pair of `out` and `n`. An index
outside `indexed` is never pushed to `fileq`; the model counts it and does
nothing else. -/
def workerIteration (A : AutogenOps α σ δ τ) (opts : Options) (indexed : List α)
    (st : AutogenResult σ δ τ × Nat) (idx : Nat) : AutogenResult σ δ τ × Nat :=
  let out := st.1
  let n := st.2 + 1
  match indexed[idx]? with
  | none => (out, n)
  | some tree =>
    if A.isPackage tree then (out, n)
    else if decide (autogenVersion A opts < A.VERSION_INCLUDE_RBI) && A.isRBI tree then (out, n)
    else
      ({ prints := out.prints ++ [(idx, serializeFile A opts tree)],
         defTree := addToDefTree A opts out.defTree tree }, n)

/-- The worker closure of lines 227-291, run on the indices `popped` that its
`try_pop` calls returned, in pop order. The result is the envelope it pushes to
`resultq` with `resultq->push(move(out), n)`: `out` and the tag `n`. -/
def worker (A : AutogenOps α σ δ τ) (opts : Options) (indexed : List α)
    (popped : List Nat) : AutogenResult σ δ τ × Nat :=
  popped.foldl (workerIteration A opts indexed) ({ defTree := A.emptyDefTree }, 0)

/-- State of the fan-in loop: the array `merged`, the definition tree `root`
and, as a record of the assignments made at line 302, the indices written so
far in order. -/
structure FanIn (σ δ τ : Type) where
  merged : List (Serialized σ δ)
  root : τ
  writes : List Nat := []
  deriving DecidableEq, Repr

/-- Line 302, `merged[print.first] = move(print.second)`. -/
def FanIn.write (st : FanIn σ δ τ) (print : Nat × Serialized σ δ) : FanIn σ δ τ :=
  { st with merged := st.merged.set print.1 print.2, writes := st.writes ++ [print.1] }

/-- The body of the fan-in loop (lines 300-307) for one envelope popped from
`resultq`. -/
def fanInStep (A : AutogenOps α σ δ τ) (opts : Options) (st : FanIn σ δ τ)
    (res : AutogenResult σ δ τ × Nat) : FanIn σ δ τ :=
  let st := res.1.prints.foldl FanIn.write st
  if opts.print.AutogenAutoloader then { st with root := A.merge st.root res.1.defTree }
  else st

/-- The fan-in loop (lines 293-308) over the envelopes `received` in the order
`wait_pop_timed` returned them, starting from `merged(indexed.size())` and a
default `root`. -/
def fanIn (A : AutogenOps α σ δ τ) (opts : Options) (indexed : List α)
    (received : List (AutogenResult σ δ τ × Nat)) : FanIn σ δ τ :=
  received.foldl (fanInStep A opts)
    { merged := List.replicate indexed.length {}, root := A.emptyDefTree }

/-- Modelled from the spec: the contracts of the two queues
(`ConcurrentBoundedQueue`, `BlockingBoundedQueue`; `common/concurrency` is not
among the sources). `dist` lists, for each worker closure that `multiplexJob`
runs, the indices its `try_pop` calls returned: every index `0..N-1` pushed to
`fileq` is popped exactly once. `received` are the envelopes the fan-in loop
obtained, in pop order, and `unread` those pushed after `resultq` reported
`done`: together they are the envelopes the workers pushed, and `done` is
reported only once the pushed tags add up to `N`, so an unread envelope has
tag 0. -/
def IsRun (A : AutogenOps α σ δ τ) (opts : Options) (indexed : List α)
    (dist : List (List Nat)) (received unread : List (AutogenResult σ δ τ × Nat)) : Prop :=
  dist.flatten.Perm (List.range indexed.length) ∧
  (received ++ unread).Perm (dist.map (worker A opts indexed)) ∧
  ∀ e ∈ unread, e.2 = 0

/-- The content the fan-in leaves in slot `i` of `merged` according to file `i`
alone: the `Serialized` value of the file when it passes the worker-local
filter, the default-constructed value when the filter skips it. -/
def slotOf (A : AutogenOps α σ δ τ) (opts : Options) (tree : α) : Serialized σ δ :=
  if skipsJob A opts tree then {} else serializeFile A opts tree

/-- Lines 335-339: the class lists of all slots of `merged`, appended to
`mergedClasslist` in slot order. -/
def mergedClasslist (merged : List (Serialized σ δ)) : List String :=
  merged.foldl (fun acc el => acc ++ el.classlist) []

/-- The comparison `a <= b` of two `std::string` values: lexicographic
comparison of their characters. -/
def stringLE (a b : String) : Prop := a.data ≤ b.data

instance stringLE_decidable : DecidableRel stringLE :=
  fun a b => inferInstanceAs (Decidable (a.data ≤ b.data))

instance stringLE_total : IsTotal String stringLE := ⟨fun a b => le_total a.data b.data⟩

instance stringLE_trans : IsTrans String stringLE :=
  ⟨fun a b c (h1 : a.data ≤ b.data) (h2 : b.data ≤ c.data) => le_trans h1 h2⟩

instance stringLE_antisymm : IsAntisymm String stringLE :=
  ⟨fun a b (h1 : a.data ≤ b.data) (h2 : b.data ≤ a.data) => String.ext (le_antisymm h1 h2)⟩

/-- Modelled from the spec: `fast_sort` (`common/sort.h` is not among the
sources), a full sort of the vector into ascending order of `std::string`
comparison; the spec calls for a stable full sort. -/
def fast_sort (v : List String) : List String :=
  v.insertionSort stringLE

/-- The range `[begin, last)` that `std::unique` leaves: one element of every
group of consecutive equal elements. -/
def unique : List String → List String
  | [] => []
  | [a] => [a]
  | a :: b :: rest => if a = b then unique (b :: rest) else a :: unique (b :: rest)

/-- Lines 335-341: the class names joined for printing, i.e. the sorted merged
class list up to the iterator `last` returned by `std::unique`. -/
def classlistNames (merged : List (Serialized σ δ)) : List String :=
  unique (fast_sort (mergedClasslist merged))

/-- Line 342: the text handed to the `AutogenClasslist` printer,
`fmt("{}\n", fmt::join(begin, last, "\n"))`. -/
def classlistText (merged : List (Serialized σ δ)) : String :=
  String.intercalate "\n" (classlistNames merged) ++ "\n"

/-- The entry one loop iteration appends to `out.prints` for the index `idx`,
if any. -/
def jobEntry (A : AutogenOps α σ δ τ) (opts : Options) (indexed : List α)
    (idx : Nat) : Option (Nat × Serialized σ δ) :=
  match indexed[idx]? with
  | none => none
  | some tree => if skipsJob A opts tree then none else some (idx, serializeFile A opts tree)

/-- All `prints` entries of a list of envelopes, in order. -/
def allPrints (envs : List (AutogenResult σ δ τ × Nat)) : List (Nat × Serialized σ δ) :=
  envs.flatMap (fun e => e.1.prints)

end Autogen

/-- A file of the test inputs below: a path tag, the two file predicates and
the classes it defines. -/
structure TestFile where
  isPackage : Bool := false
  isRBI : Bool := false
  classes : List String := []
  deriving DecidableEq, Repr

/-- Collaborators for the test inputs: the renderers read the fields of a
`TestFile`, the definition tree is the list of class names added. -/
def testOps : AutogenOps TestFile Unit Unit (List String) where
  isPackage := fun f => f.isPackage
  isRBI := fun f => f.isRBI
  toString := fun f v => String.intercalate "," f.classes ++ "@" ++ toString v
  toMsgpack := fun f _ => String.intercalate ";" f.classes
  listAllClasses := fun f => f.classes
  listAllSubclasses := fun _ => some ()
  dslInfo := fun _ => ()
  emptyDefTree := []
  addParsedFileDefinitions := fun t f => t ++ f.classes
  merge := fun a b => a ++ b
  MAX_VERSION := 4
  VERSION_INCLUDE_RBI := 3

/-- Print options with the class list enabled. -/
def classlistOpts : Options := { print := { AutogenClasslist := true } }

/-- Three input files: an ordinary file, a package file and another ordinary
file. -/
def testFiles : List TestFile :=
  [{ classes := ["B", "A"] }, { isPackage := true, classes := ["P"] }, { classes := ["A", "C"] }]

/-- A split of the three jobs between two worker closures: the first pops 2
and then 1, the second pops 0. -/
def testDist : List (List Nat) := [[2, 1], [0]]

/-- The envelopes of the two workers of `testDist`, in push order. -/
def testEnvelopes : List (AutogenResult Unit Unit (List String) × Nat) :=
  testDist.map (worker testOps classlistOpts testFiles)

/-- Another split of the same jobs: three workers, the second of which finds
`fileq` empty at once. -/
def testDist2 : List (List Nat) := [[0, 1, 2], [], []]

/-! ## Sigil rendering and the suggest-typed pass -/

/-- Embedding of `levelToSigil` (realmain.cc 136-159). -/
def levelToSigil (level : StrictLevel) : Except String String :=
  match level with
  | .None => .error shouldNeverHappen
  | .Internal => .error shouldNeverHappen
  | .Ignore => .ok "ignore"
  | .False => .ok "false"
  | .True => .ok "true"
  | .Strict => .ok "strict"
  | .Strong => .ok "strong"
  | .Max => .error shouldNeverHappen
  | .Autogenerated => .error shouldNeverHappen
  | .Stdlib => .ok "__STDLIB_INTERNAL"

/-- Embedding of `core::strictLevelToSigil` (StrictLevel.cc 11-34). -/
def strictLevelToSigil (level : StrictLevel) : Except String String :=
  match level with
  | .None => .error shouldNeverHappen
  | .Internal => .error shouldNeverHappen
  | .Ignore => .ok "ignore"
  | .False => .ok "false"
  | .True => .ok "true"
  | .Strict => .ok "strict"
  | .Strong => .ok "strong"
  | .Max => .error shouldNeverHappen
  | .Autogenerated => .error shouldNeverHappen
  | .Stdlib => .ok "__STDLIB_INTERNAL"

/-- The range a `core::Loc` is built from: the offsets `begin` and `end`
handed to its constructor. -/
structure Loc where
  beginPos : Int
  endPos : Int
  deriving DecidableEq, Repr

/-- What one iteration of the suggest-typed loop reports: the level proposed,
the sigil put into the header and the replacement, and the location of the
edit. -/
structure Suggestion where
  level : StrictLevel
  sigil : String
  loc : Loc
  deriving DecidableEq, Repr

/-- Embedding of one iteration of the suggest-typed loop (realmain.cc 701-723)
for a file that exists, with `minErrorLevel` the value of
`file.data(*gs).minErrorLevel()` and `originalSigil` the field of that name.
`loc` is what `findTyped` returns for the file and `errorBuilt` tells whether
`gs->beginError` yields a builder. `none` stands for an iteration that proposes
nothing (a `continue`, or no builder), an error for a raise. -/
def suggestTyped (minErrorLevel originalSigil : StrictLevel) (loc : Loc)
    (errorBuilt : Bool) : Except String (Option Suggestion) :=
  if minErrorLevel ≤ StrictLevel.Ignore then .ok none
  else if originalSigil > StrictLevel.Max then .ok none
  else do
    let minErrorLevel ← levelMinusOne minErrorLevel
    if originalSigil = minErrorLevel then pure none
    else do
      let minErrorLevel ← levelToRecommendation minErrorLevel
      if originalSigil = minErrorLevel then pure none
      else if errorBuilt then do
        let sigil ← levelToSigil minErrorLevel
        pure (some { level := minErrorLevel, sigil := sigil, loc := loc })
      else pure none

/-! ## The metrics status (realmain.cc 786-800) -/

/-- Embedding of realmain.cc 788-795: the status put into the metrics, from the
global state and the value `returnCode` has at that point. -/
def metricsStatus (returnCode : Int) (gs : GlobalState) : String :=
  if gs.hadCriticalError then "Error"
  else if returnCode != 0 then "Failure"
  else "Success"

/-- What the end of a run leaves behind: the status written to the metrics
file, if one is configured, and the exit code. -/
structure RunResult where
  status : Option String
  exitCode : Int
  deriving DecidableEq, Repr

/-- Embedding of the end of `realmain` for a non-LSP run (lines 786-816 and
832). In such a run `gs` is the state created at line 512 and never null, and
`returnCode` still holds the 0 of line 429 when line 791 reads it; lines
812-816 assign it afterwards. -/
def realmainEnd (gs : GlobalState) (gsForMinimize : Option GlobalState)
    (opts : Options) : RunResult :=
  let returnCode : Int := 0
  let status :=
    if !opts.metricsFile.isEmpty then some (metricsStatus returnCode gs) else none
  { status := status, exitCode := exitStatus returnCode (some gs) gsForMinimize opts }

/-- How a run ends when it does not return from `realmain`: a member call
through a null `unique_ptr`, at the given line. -/
inductive Crash where
  | nullDereference (line : Nat)
  deriving DecidableEq, Repr

/-- Embedding of the end of `realmain` for any run, LSP runs included (lines
786-816 and 832). `gs` is `none` when line 598 left it null
(`loop.runLSP(...).value_or(nullptr)`); `returnCode` is the value the global
holds when line 786 is reached. With a metrics file configured, line 789 calls
`gs->hadCriticalError()` before anything tests `gs`: on a null `gs` the run
ends there. Otherwise the status is chosen and lines 812-816 give the exit
code. -/
def realmainTail (returnCode : Int) (gs gsForMinimize : Option GlobalState)
    (opts : Options) : Except Crash RunResult :=
  if !opts.metricsFile.isEmpty then
    match gs with
    | none => .error (.nullDereference 789)
    | some g =>
      .ok { status := some (metricsStatus returnCode g),
            exitCode := exitStatus returnCode gs gsForMinimize opts }
  else
    .ok { status := none, exitCode := exitStatus returnCode gs gsForMinimize opts }

/-! ## The subclasses map (realmain.cc 345-362) -/

section Subclasses

variable {κ δ : Type}

end Subclasses

/-- The largest `size_t`: the value of `string_view::npos`, and what `--start`
leaves in `start` when it was 0. -/
def SIZE_MAX : Nat := 2 ^ 64 - 1

/-- A read through `source[i]` at an index the source text does not cover. -/
inductive Fault where
  | outOfRange (index : Nat)
  deriving DecidableEq, Repr

/-- What `source[i]` yields. The source text is the list of its characters, so
`source.length` is `source.length()`. An index below the length yields the
character stored there. The index `source.length()` itself lies outside the
text; the view spans a whole `std::string`, whose buffer ends with a NUL
character right behind the text, and that is what the read finds. Any index
beyond is a fault. -/
def charAt (source : List Char) (i : Nat) : Except Fault Char :=
  match source[i]? with
  | some c => .ok c
  | none => if i = source.length then .ok (Char.ofNat 0) else .error (.outOfRange i)

/-- The outcome of a scan together with the indices it read through
`source[...]`, in the order of the reads. -/
structure Scan (α : Type) where
  reads : List Nat
  result : Except Fault α
  deriving DecidableEq, Repr

/-- The search of `string_view::find(pattern, pos)` over the characters from
`pos` on: the first position at which `pattern` starts, `none` for `npos`. -/
def findFrom (pattern : List Char) : List Char → Nat → Option Nat
  | [], pos => if pattern.isPrefixOf [] then some pos else none
  | c :: rest, pos =>
    if pattern.isPrefixOf (c :: rest) then some pos else findFrom pattern rest (pos + 1)

/-- The call `source.find(pattern, 0)`. -/
def find (source pattern : List Char) : Option Nat :=
  findFrom pattern source 0

/-- The conversion of a `size_t` to `int` (line 166): the value modulo `2^32`,
read as a signed number. -/
def toInt32 (n : Nat) : Int :=
  if n % 2 ^ 32 < 2 ^ 31 then ((n % 2 ^ 32 : Nat) : Int) else ((n % 2 ^ 32 : Nat) : Int) - 2 ^ 32

/-- The characters of the literal `"typed:"`. -/
def typedPattern : List Char := "typed:".data

/-- Lines 176-178, `while (start >= 0 && source[start] != '#') --start;`. The
test `start >= 0` holds for every `size_t`, so the loop ends only when a `#`
is read. When `start` is 0 and `source[0]` is not `#`, `--start` wraps to
`SIZE_MAX` and the next test reads `source[SIZE_MAX]`, which no source text
covers (a text has fewer than `SIZE_MAX` characters): the scan stops with that
fault. -/
def scanBack (source : List Char) : Nat → List Nat → Scan Nat
  | 0, reads =>
    match charAt source 0 with
    | .error f => { reads := reads ++ [0], result := .error f }
    | .ok c =>
      if c = '#' then { reads := reads ++ [0], result := .ok 0 }
      else { reads := reads ++ [0, SIZE_MAX], result := .error (.outOfRange SIZE_MAX) }
  | start + 1, reads =>
    match charAt source (start + 1) with
    | .error f => { reads := reads ++ [start + 1], result := .error f }
    | .ok c =>
      if c = '#' then { reads := reads ++ [start + 1], result := .ok (start + 1) }
      else scanBack source start (reads ++ [start + 1])

/-- Lines 180-182, `while (end < source.size() && source[end] != '\n') ++end;`,
run over the characters `rest` that the source holds from index `pos` on. The
result is the final `end` with the reads made: none when `end` has reached the
size, since the first operand of `&&` is false then. -/
def scanLine : List Char → Nat → List Nat → Nat × List Nat
  | [], pos, reads => (pos, reads)
  | c :: rest, pos, reads =>
    if c = '\n' then (pos, reads ++ [pos]) else scanLine rest (pos + 1) (reads ++ [pos])

/-- Lines 171-186, the path of `findTyped` for a file whose `originalSigil` is
not `None`. -/
def findSigil (source : List Char) : Scan Loc :=
  match find source typedPattern with
  | none => { reads := [], result := .ok ⟨0, 0⟩ }
  | some start =>
    let back := scanBack source start []
    match back.result with
    | .error f => { reads := back.reads, result := .error f }
    | .ok start =>
      let fwd := scanLine (source.drop start) start back.reads
      match charAt source fwd.1 with
      | .error f => { reads := fwd.2 ++ [fwd.1], result := .error f }
      | .ok c =>
        { reads := fwd.2 ++ [fwd.1],
          result := .ok ⟨start, if c = '\n' then ((fwd.1 + 1 : Nat) : Int) else fwd.1⟩ }

/-- Lines 165-169, the path of `findTyped` for a file whose `originalSigil` is
`None`: behind the first line when the source starts with `#!`, else the empty
range at 0. -/
def findShebang (source : List Char) : Scan Loc :=
  match source with
  | c0 :: c1 :: _ =>
    if c0 = '#' then
      if c1 = '!' then
        let newline : Int :=
          toInt32 (match find source ['\n'] with
            | some pos => pos
            | none => SIZE_MAX)
        { reads := [0, 1], result := .ok ⟨newline + 1, newline + 1⟩ }
      else { reads := [0, 1], result := .ok ⟨0, 0⟩ }
    else { reads := [0], result := .ok ⟨0, 0⟩ }
  | _ => { reads := [], result := .ok ⟨0, 0⟩ }

/-- Embedding of `findTyped` (realmain.cc 161-187) on the source text and the
`originalSigil` of the file. -/
def findTyped (source : List Char) (originalSigil : StrictLevel) : Scan Loc :=
  if originalSigil = .None then findShebang source else findSigil source

/-- Words of the claim: `pattern` occurs in `source` at index `q`. -/
def OccursAt (pattern source : List Char) (q : Nat) : Prop :=
  pattern <+: source.drop q

/-- Words of the claim: `p` is the first occurrence of `pattern` in
`source`. -/
def FirstOccurrence (pattern source : List Char) (p : Nat) : Prop :=
  OccursAt pattern source p ∧ ∀ q, q < p → ¬ OccursAt pattern source q

/-- Words of the claim: `b` is the index of the nearest `#` at or before
index `p`. -/
def NearestHash (source : List Char) (p b : Nat) : Prop :=
  b ≤ p ∧ source[b]? = some '#' ∧ ∀ j, b < j → j ≤ p → source[j]? ≠ some '#'

/-- Words of the claim: `e` is one past the first line break at or after `b`,
the source length when no line break follows. -/
def LineEnd (source : List Char) (b e : Nat) : Prop :=
  (∃ nl, b ≤ nl ∧ source[nl]? = some '\n' ∧
    (∀ j, b ≤ j → j < nl → source[j]? ≠ some '\n') ∧ e = nl + 1) ∨
  ((∀ j, b ≤ j → source[j]? ≠ some '\n') ∧ e = source.length)

/-- A source of three lines: a comment, a line that starts with "typed:" and
the sigil comment. The sigil comment is the range `[13, 27)`. -/
def crossLineSource : List Char := "# c\ntyped: x\n# typed: true\n".data

end Sorbet

namespace Sorbet

/-! ## Theorems: pass sequencing -/

theorem Driver.flushIfCritical_log (d : Driver) :
    passesOf d.flushIfCritical.log = passesOf d.log := by
  unfold Driver.flushIfCritical
  split
  · simp [Driver.invoke, passesOf, List.filter_append]
  · rfl

theorem Driver.invoke_log (s : Step) (f : GlobalState → GlobalState) (d : Driver)
    (hs : s ≠ .flush) : passesOf (d.invoke s f).log = passesOf d.log ++ [s] := by
  simp [Driver.invoke, passesOf, List.filter_append, hs]

theorem indexStage_passes (P : Passes) (opts : Options) (gs : GlobalState) :
    passesOf (indexStage P opts gs).log = [.index] := by
  unfold indexStage
  simp only []
  rw [Driver.flushIfCritical_log]
  split <;> rfl

theorem indexStage_critical (P : Passes) (opts : Options) (gs : GlobalState)
    (h : (afterIndex P opts gs).hadCriticalError = true) :
    indexStage P opts gs =
      { gs := flushAllErrors (afterIndex P opts gs), log := [.index, .flush] } := by
  unfold indexStage afterIndex at *
  split at h <;> simp_all [Driver.flushIfCritical, Driver.invoke]

/-- C5 fails: with passes in which indexing records a critical error, the
driver still invokes resolve and typecheck (and, under autogen, package, name,
constant resolution and autogen) after it; with passes in which resolving
records a critical error, it still invokes typecheck. -/
theorem runPasses_continues_after_critical_error :
    (afterIndex criticalIndexPasses {} {}).hadCriticalError = true ∧
    (runPasses criticalIndexPasses {} {}).log =
      [.index, .flush, .cache, .resolve, .flush, .typecheck, .flush] ∧
    (runPasses criticalIndexPasses {} { runningUnderAutogen := true }).log =
      [.index, .flush, .cache, .package, .name, .constantResolution, .enterConfig, .autogen] ∧
    (runPasses criticalResolvePasses {} {}).log =
      [.index, .cache, .resolve, .flush, .typecheck, .flush] ∧
    ¬ (∀ (P : Passes) (opts : Options) (gs : GlobalState),
        (afterIndex P opts gs).hadCriticalError = true →
        ∀ s ∈ (runPasses P opts gs).log, s.isLaterPass = false) := by
  refine ⟨by decide, by decide, by decide, by decide, ?_⟩
  intro h
  exact absurd (h criticalIndexPasses {} {} (by decide) .resolve (by decide)) (by decide)

/-- C5 (amended): the sequence of passes the batch driver invokes does not
depend on `hadCriticalError()`: it is always index, cache and then either
package, name, constant resolution, `enterConfig`, autogen or resolve,
typecheck. A critical error after indexing, resolving or typechecking only
makes the driver flush the queued diagnostics right after that pass: the state
handed on has an empty queue and every diagnostic queued so far is flushed. -/
theorem runPasses_sequence_and_flush (P : Passes) (opts : Options) (gs : GlobalState) :
    passesOf (runPasses P opts gs).log =
      (if (afterCache P opts gs).gs.runningUnderAutogen then
        [.index, .cache, .package, .name, .constantResolution, .enterConfig, .autogen]
      else [.index, .cache, .resolve, .typecheck]) ∧
    ((afterIndex P opts gs).hadCriticalError = true →
      indexStage P opts gs =
        { gs := flushAllErrors (afterIndex P opts gs), log := [.index, .flush] } ∧
      (indexStage P opts gs).gs.queued = [] ∧
      (indexStage P opts gs).gs.flushed =
        (afterIndex P opts gs).flushed ++ (afterIndex P opts gs).queued) ∧
    (∀ d : Driver, (P.resolve d.gs).hadCriticalError = true →
      resolveStage P d =
        { gs := flushAllErrors (P.resolve d.gs), log := d.log ++ [.resolve, .flush] } ∧
      (resolveStage P d).gs.queued = []) ∧
    (∀ d : Driver, (P.typecheck d.gs).hadCriticalError = true →
      typecheckStage P d =
        { gs := flushAllErrors (P.typecheck d.gs), log := d.log ++ [.typecheck, .flush] } ∧
      (typecheckStage P d).gs.queued = []) := by
  refine ⟨?_, ?_, ?_, ?_⟩
  · have hc : passesOf (afterCache P opts gs).log = [.index, .cache] := by
      unfold afterCache
      rw [Driver.invoke_log _ _ _ (by decide), indexStage_passes]
      rfl
    show passesOf (if (afterCache P opts gs).gs.runningUnderAutogen = true then
        autogenStage P (afterCache P opts gs)
      else typecheckStage P (resolveStage P (afterCache P opts gs))).log = _
    split
    · simp only [autogenStage]
      repeat rw [Driver.invoke_log _ _ _ (by decide)]
      rw [hc]
      rfl
    · simp only [typecheckStage, resolveStage]
      rw [Driver.flushIfCritical_log, Driver.invoke_log _ _ _ (by decide),
        Driver.flushIfCritical_log, Driver.invoke_log _ _ _ (by decide), hc]
      rfl
  · intro h
    rw [indexStage_critical P opts gs h]
    exact ⟨rfl, rfl, rfl⟩
  · intro d h
    have : resolveStage P d =
        { gs := flushAllErrors (P.resolve d.gs), log := d.log ++ [.resolve, .flush] } := by
      simp [resolveStage, Driver.flushIfCritical, Driver.invoke, h]
    rw [this]
    exact ⟨rfl, rfl⟩
  · intro d h
    have : typecheckStage P d =
        { gs := flushAllErrors (P.typecheck d.gs), log := d.log ++ [.typecheck, .flush] } := by
      simp [typecheckStage, Driver.flushIfCritical, Driver.invoke, h]
    rw [this]
    exact ⟨rfl, rfl⟩

/-- Witness of the amended C5: with a critical error recorded by indexing, the
index stage flushes the queued diagnostic. -/
theorem runPasses_sequence_and_flush_witness :
    (afterIndex criticalIndexPasses {} {}).hadCriticalError = true ∧
    (indexStage criticalIndexPasses {} {}).gs.queued = [] ∧
    (indexStage criticalIndexPasses {} {}).gs.flushed = ["internal error"] :=
  ⟨by decide,
    ((runPasses_sequence_and_flush criticalIndexPasses {} {}).2.1 (by decide)).2.1,
    (((runPasses_sequence_and_flush criticalIndexPasses {} {}).2.1 (by decide)).2.2).trans
      (by decide)⟩

/-! ## Theorems: exit status -/

/-- The statement at lines 812-816 alone: when it is reached with a null
global state, or with a critical error recorded in the global state or in the
minimize baseline state, it leaves 10 in `returnCode`, for every prior value
of `returnCode`, every number of diagnostics and either setting of the
suppress-non-critical-errors option. -/
theorem exitStatus_critical (returnCode : Int) (gs gsForMinimize : Option GlobalState)
    (opts : Options)
    (h : gs = none ∨ (∃ g, gs = some g ∧ g.hadCriticalError = true) ∨
      (∃ m, gsForMinimize = some m ∧ m.hadCriticalError = true)) :
    exitStatus returnCode gs gsForMinimize opts = 10 := by
  rcases h with h | ⟨g, hg, hc⟩ | ⟨m, hm, hc⟩
  · subst h; rfl
  · subst hg; simp [exitStatus, hc]
  · subst hm
    cases gs with
    | none => rfl
    | some g => simp [exitStatus, hc]

/-- C7: for a run that ends with a global state and no critical error (neither
in it nor in the minimize baseline state), the exit code is 0 when
suppress-non-critical-errors is configured, whatever the number of diagnostics;
otherwise it is non-zero (namely 1) exactly when at least one diagnostic was
reported. -/
theorem realmainExitCode_noncritical (g : GlobalState) (gsForMinimize : Option GlobalState)
    (opts : Options) (hg : g.hadCriticalError = false)
    (hm : ∀ m, gsForMinimize = some m → m.hadCriticalError = false) :
    (opts.supressNonCriticalErrors = true →
      realmainExitCode (some g) gsForMinimize opts = 0) ∧
    (opts.supressNonCriticalErrors = false →
      (realmainExitCode (some g) gsForMinimize opts ≠ 0 ↔ 0 < g.totalErrors) ∧
      (0 < g.totalErrors → realmainExitCode (some g) gsForMinimize opts = 1) ∧
      (g.totalErrors = 0 → realmainExitCode (some g) gsForMinimize opts = 0)) := by
  cases gsForMinimize with
  | none =>
    refine ⟨fun hs => ?_, fun hs => ?_⟩
    · simp [realmainExitCode, exitStatus, hg, hs]
    · by_cases ht : 0 < g.totalErrors
      · simp [realmainExitCode, exitStatus, hg, hs, ht]
        omega
      · have h0 : g.totalErrors = 0 := by omega
        simp [realmainExitCode, exitStatus, hg, hs, h0]
  | some m =>
    have hmc : m.hadCriticalError = false := hm m rfl
    refine ⟨fun hs => ?_, fun hs => ?_⟩
    · simp [realmainExitCode, exitStatus, hg, hs, hmc]
    · by_cases ht : 0 < g.totalErrors
      · simp [realmainExitCode, exitStatus, hg, hs, ht, hmc]
        omega
      · have h0 : g.totalErrors = 0 := by omega
        simp [realmainExitCode, exitStatus, hg, hs, h0, hmc]

/-- Witness of C7: three diagnostics, no critical error, suppression off. -/
theorem realmainExitCode_noncritical_witness :
    realmainExitCode (some { totalErrors := 3 }) none {} = 1 :=
  ((realmainExitCode_noncritical { totalErrors := 3 } none {} rfl
    (fun _ h => Option.noConfusion h)).2 rfl).2.1 (by decide)

/-! ## Theorems: strictness ladder -/

/-- C8: `levelMinusOne` sends `False`, `True`, `Strict`, `Strong` to `Ignore`,
`False`, `True`, `Strict`; for every real level above `Ignore` it returns a
real level that is strictly lower, with no real level strictly between the
result and the argument. -/
theorem levelMinusOne_immediate_predecessor :
    levelMinusOne .False = .ok .Ignore ∧ levelMinusOne .True = .ok .False ∧
    levelMinusOne .Strict = .ok .True ∧ levelMinusOne .Strong = .ok .Strict ∧
    ∀ l : StrictLevel, l.isReal = true → StrictLevel.Ignore < l →
      ∃ p : StrictLevel, levelMinusOne l = .ok p ∧ p.isReal = true ∧ p < l ∧
        ∀ m : StrictLevel, m.isReal = true → ¬ (p < m ∧ m < l) := by
  refine ⟨rfl, rfl, rfl, rfl, ?_⟩
  intro l hl hlow
  cases l <;> first
    | exact absurd hl (by decide)
    | exact absurd hlow (by decide)
    | exact ⟨_, rfl, by decide, by decide, fun m _ => by cases m <;> decide⟩

/-- Witness of C8 at `Strict`: its predecessor is `True`. -/
theorem levelMinusOne_immediate_predecessor_witness :
    ∃ p : StrictLevel, levelMinusOne .Strict = .ok p ∧ p.isReal = true ∧ p < .Strict ∧
      ∀ m : StrictLevel, m.isReal = true → ¬ (p < m ∧ m < .Strict) :=
  levelMinusOne_immediate_predecessor.2.2.2.2 .Strict (by decide) (by decide)

/-- C9 fails at the sentinel `Max`: it is a sentinel, yet `levelMinusOne`
returns `Strong` for it and `levelToRecommendation` returns `Strict`, so not
every sentinel is rejected. -/
theorem ladder_accepts_Max :
    StrictLevel.Max.isSentinel = true ∧
    levelMinusOne .Max = .ok .Strong ∧ levelToRecommendation .Max = .ok .Strict ∧
    ¬ (∀ s : StrictLevel, s.isSentinel = true →
        levelMinusOne s = .error shouldNeverHappen ∧
        levelToRecommendation s = .error shouldNeverHappen) := by
  refine ⟨rfl, rfl, rfl, ?_⟩
  intro h
  exact absurd (h .Max rfl).1 (by decide)

/-- C9 (amended): for every sentinel level other than `Max`, that is `None`,
`Internal`, `Autogenerated` and `Stdlib`, both `levelMinusOne` and
`levelToRecommendation` raise "Should never happen"; and a sentinel is rejected
by either function exactly when it is not `Max`. -/
theorem ladder_rejects_sentinels_except_Max (s : StrictLevel) (hs : s.isSentinel = true) :
    (s ≠ .Max → levelMinusOne s = .error "Should never happen" ∧
      levelToRecommendation s = .error "Should never happen") ∧
    (levelMinusOne s = .error "Should never happen" ↔ s ≠ .Max) ∧
    (levelToRecommendation s = .error "Should never happen" ↔ s ≠ .Max) := by
  cases s <;> first
    | exact absurd hs (by decide)
    | decide

/-- Witness of the amended C9 at the sentinel `Autogenerated`. -/
theorem ladder_rejects_sentinels_except_Max_witness :
    levelMinusOne .Autogenerated = .error "Should never happen" ∧
    levelToRecommendation .Autogenerated = .error "Should never happen" :=
  (ladder_rejects_sentinels_except_Max .Autogenerated (by decide)).1 (by decide)

/-- C10: on every real level `levelToRecommendation` returns `min l Strict`: it
is the identity on levels up to `Strict` and returns `Strict` for `Strong`; the
result is never above `Strict`, applying the function to its own result changes
nothing, and it is monotone on the real levels. -/
theorem levelToRecommendation_clamps_at_strict (l : StrictLevel) (hl : l.isReal = true) :
    levelToRecommendation l = .ok (StrictLevel.min l .Strict) ∧
    (l ≤ .Strict → levelToRecommendation l = .ok l) ∧
    (l = .Strong → levelToRecommendation l = .ok .Strict) ∧
    (∃ r : StrictLevel, levelToRecommendation l = .ok r ∧ r.isReal = true ∧ r ≤ .Strict ∧
      levelToRecommendation r = .ok r) ∧
    (levelToRecommendation l >>= levelToRecommendation) = levelToRecommendation l ∧
    ∀ l2 : StrictLevel, l2.isReal = true → l ≤ l2 →
      ∃ r r2 : StrictLevel, levelToRecommendation l = .ok r ∧
        levelToRecommendation l2 = .ok r2 ∧ r ≤ r2 := by
  cases l <;> first
    | exact absurd hl (by decide)
    | refine ⟨by decide, by decide, by decide, ⟨_, rfl, by decide, by decide, rfl⟩, rfl, ?_⟩
      intro l2 hl2 hle
      cases l2 <;> first
        | exact absurd hl2 (by decide)
        | exact absurd hle (by decide)
        | exact ⟨_, _, rfl, rfl, by decide⟩

/-- Witness of C10 at `Strong`, the one real level that is clamped. -/
theorem levelToRecommendation_clamps_at_strict_witness :
    levelToRecommendation .Strong = .ok (StrictLevel.min .Strong .Strict) ∧
    StrictLevel.min .Strong .Strict = .Strict :=
  ⟨(levelToRecommendation_clamps_at_strict .Strong (by decide)).1, by decide⟩

/-! ## Theorems: the autogen fan-out/fan-in -/

section AutogenProofs

variable {α σ δ τ : Type}

theorem workerIteration_eq (A : AutogenOps α σ δ τ) (opts : Options) (indexed : List α)
    (st : AutogenResult σ δ τ × Nat) (idx : Nat) :
    (workerIteration A opts indexed st idx).2 = st.2 + 1 ∧
    (workerIteration A opts indexed st idx).1.prints =
      st.1.prints ++ (jobEntry A opts indexed idx).toList := by
  unfold workerIteration jobEntry skipsJob
  cases indexed[idx]? with
  | none => simp
  | some tree =>
    by_cases hp : A.isPackage tree = true
    · simp [hp]
    · by_cases hr : (decide (autogenVersion A opts < A.VERSION_INCLUDE_RBI) && A.isRBI tree) = true
      · simp [hp, hr]
      · simp [hp, hr]

theorem worker_foldl (A : AutogenOps α σ δ τ) (opts : Options) (indexed : List α)
    (popped : List Nat) (st : AutogenResult σ δ τ × Nat) :
    (popped.foldl (workerIteration A opts indexed) st).2 = st.2 + popped.length ∧
    (popped.foldl (workerIteration A opts indexed) st).1.prints =
      st.1.prints ++ popped.filterMap (jobEntry A opts indexed) := by
  induction popped generalizing st with
  | nil => simp
  | cons idx rest ih =>
    obtain ⟨h1, h2⟩ := workerIteration_eq A opts indexed st idx
    obtain ⟨i1, i2⟩ := ih (workerIteration A opts indexed st idx)
    simp only [List.foldl_cons, List.length_cons]
    refine ⟨by rw [i1, h1]; omega, ?_⟩
    rw [i2, h2]
    cases hj : jobEntry A opts indexed idx <;> simp [List.filterMap_cons, hj]

theorem worker_n (A : AutogenOps α σ δ τ) (opts : Options) (indexed : List α)
    (popped : List Nat) : (worker A opts indexed popped).2 = popped.length := by
  have h := (worker_foldl A opts indexed popped ({ defTree := A.emptyDefTree }, 0)).1
  simpa [worker] using h

theorem worker_prints (A : AutogenOps α σ δ τ) (opts : Options) (indexed : List α)
    (popped : List Nat) :
    (worker A opts indexed popped).1.prints = popped.filterMap (jobEntry A opts indexed) := by
  have h := (worker_foldl A opts indexed popped ({ defTree := A.emptyDefTree }, 0)).2
  simpa [worker] using h

theorem write_foldl (ps : List (Nat × Serialized σ δ)) (st : FanIn σ δ τ) :
    (ps.foldl FanIn.write st).merged = ps.foldl (fun m p => m.set p.1 p.2) st.merged ∧
    (ps.foldl FanIn.write st).writes = st.writes ++ ps.map Prod.fst ∧
    (ps.foldl FanIn.write st).root = st.root := by
  induction ps generalizing st with
  | nil => simp
  | cons p rest ih =>
    obtain ⟨h1, h2, h3⟩ := ih (st.write p)
    simp only [List.foldl_cons, List.map_cons]
    exact ⟨h1, by rw [h2]; simp [FanIn.write], h3⟩

theorem fanIn_foldl (A : AutogenOps α σ δ τ) (opts : Options)
    (received : List (AutogenResult σ δ τ × Nat)) (st : FanIn σ δ τ) :
    (received.foldl (fanInStep A opts) st).merged =
      (allPrints received).foldl (fun m p => m.set p.1 p.2) st.merged ∧
    (received.foldl (fanInStep A opts) st).writes =
      st.writes ++ (allPrints received).map Prod.fst := by
  induction received generalizing st with
  | nil => simp [allPrints]
  | cons e rest ih =>
    obtain ⟨h1, h2⟩ := ih (fanInStep A opts st e)
    obtain ⟨w1, w2, _⟩ := write_foldl (τ := τ) e.1.prints st
    have hm : (fanInStep A opts st e).merged = (e.1.prints.foldl FanIn.write st).merged := by
      unfold fanInStep; split <;> rfl
    have hw : (fanInStep A opts st e).writes = (e.1.prints.foldl FanIn.write st).writes := by
      unfold fanInStep; split <;> rfl
    simp only [List.foldl_cons]
    refine ⟨?_, ?_⟩
    · rw [h1, hm, w1]; simp [allPrints, List.flatMap_cons, List.foldl_append]
    · rw [h2, hw, w2]; simp [allPrints, List.flatMap_cons, List.append_assoc]

theorem setFold_length {β : Type} (ps : List (Nat × β)) (init : List β) :
    (ps.foldl (fun m p => m.set p.1 p.2) init).length = init.length := by
  induction ps generalizing init with
  | nil => rfl
  | cons p rest ih => simp [ih]

theorem setFold_of_not_mem {β : Type} (ps : List (Nat × β)) (init : List β) (i : Nat)
    (hi : i ∉ ps.map Prod.fst) :
    (ps.foldl (fun m p => m.set p.1 p.2) init)[i]? = init[i]? := by
  induction ps generalizing init with
  | nil => rfl
  | cons p rest ih =>
    simp only [List.map_cons, List.mem_cons, not_or] at hi
    simp only [List.foldl_cons]
    rw [ih _ hi.2, List.getElem?_set_ne (Ne.symm hi.1)]

theorem setFold_of_mem {β : Type} (ps : List (Nat × β)) (init : List β) (i : Nat) (v : β)
    (hnd : (ps.map Prod.fst).Nodup) (hm : (i, v) ∈ ps) (hi : i < init.length) :
    (ps.foldl (fun m p => m.set p.1 p.2) init)[i]? = some v := by
  induction ps generalizing init with
  | nil => cases hm
  | cons p rest ih =>
    simp only [List.map_cons, List.nodup_cons] at hnd
    simp only [List.foldl_cons]
    rcases List.mem_cons.1 hm with h | h
    · subst h
      rw [setFold_of_not_mem _ _ _ hnd.1]
      simp [hi]
    · exact ih _ hnd.2 h (by simpa using hi)

theorem jobEntry_of_lt (A : AutogenOps α σ δ τ) (opts : Options) (indexed : List α) (i : Nat)
    (hi : i < indexed.length) :
    jobEntry A opts indexed i =
      if skipsJob A opts indexed[i] then none else some (i, serializeFile A opts indexed[i]) := by
  simp [jobEntry, List.getElem?_eq_getElem hi]

theorem jobEntry_fst (A : AutogenOps α σ δ τ) (opts : Options) (indexed : List α) (i : Nat)
    (p : Nat × Serialized σ δ) (h : jobEntry A opts indexed i = some p) : p.1 = i := by
  unfold jobEntry at h
  cases hg : indexed[i]? with
  | none => simp [hg] at h
  | some tree =>
    simp only [hg] at h
    split at h
    · cases h
    · cases h; rfl

theorem filterMap_jobEntry_keys (A : AutogenOps α σ δ τ) (opts : Options) (indexed : List α)
    (l : List Nat) :
    (l.filterMap (jobEntry A opts indexed)).map Prod.fst =
      l.filter (fun i => (jobEntry A opts indexed i).isSome) := by
  induction l with
  | nil => rfl
  | cons i rest ih =>
    cases hj : jobEntry A opts indexed i with
    | none => simp [List.filterMap_cons, hj, ih]
    | some p =>
      have := jobEntry_fst A opts indexed i p hj
      simp [List.filterMap_cons, hj, ih, this]

theorem worker_zero (A : AutogenOps α σ δ τ) (opts : Options) (indexed : List α)
    (popped : List Nat) (h : (worker A opts indexed popped).2 = 0) :
    (worker A opts indexed popped).1.prints = [] := by
  rw [worker_n] at h
  rw [worker_prints, List.length_eq_zero.1 h]
  rfl

theorem allPrints_workers (A : AutogenOps α σ δ τ) (opts : Options) (indexed : List α)
    (dist : List (List Nat)) :
    allPrints (dist.map (worker A opts indexed)) =
      dist.flatten.filterMap (jobEntry A opts indexed) := by
  induction dist with
  | nil => rfl
  | cons l rest ih =>
    simp only [allPrints, List.map_cons, List.flatMap_cons, List.flatten_cons,
      List.filterMap_append] at ih ⊢
    rw [ih, worker_prints]

theorem IsRun.allPrints_perm {A : AutogenOps α σ δ τ} {opts : Options} {indexed : List α}
    {dist : List (List Nat)} {received unread : List (AutogenResult σ δ τ × Nat)}
    (h : IsRun A opts indexed dist received unread) :
    (allPrints received).Perm
      ((List.range indexed.length).filterMap (jobEntry A opts indexed)) := by
  obtain ⟨hd, hr, hu⟩ := h
  have hun : allPrints unread = [] := by
    unfold allPrints
    rw [List.flatMap_eq_nil_iff]
    intro e he
    have hmem : e ∈ dist.map (worker A opts indexed) :=
      hr.subset (List.mem_append_right _ he)
    obtain ⟨l, _, rfl⟩ := List.mem_map.1 hmem
    exact worker_zero A opts indexed l (hu _ he)
  have h1 : (allPrints (received ++ unread)).Perm
      (allPrints (dist.map (worker A opts indexed))) :=
    List.Perm.flatMap_right _ hr
  have h2 : allPrints (received ++ unread) = allPrints received := by
    have : allPrints (received ++ unread) = allPrints received ++ allPrints unread := by
      simp [allPrints, List.flatMap_append]
    rw [this, hun, List.append_nil]
  rw [h2, allPrints_workers] at h1
  exact h1.trans (hd.filterMap _)

theorem IsRun.writes_perm {A : AutogenOps α σ δ τ} {opts : Options} {indexed : List α}
    {dist : List (List Nat)} {received unread : List (AutogenResult σ δ τ × Nat)}
    (h : IsRun A opts indexed dist received unread) :
    (fanIn A opts indexed received).writes.Perm
      ((List.range indexed.length).filter (fun i => (jobEntry A opts indexed i).isSome)) := by
  have hw := (fanIn_foldl A opts received
    { merged := List.replicate indexed.length {}, root := A.emptyDefTree }).2
  simp only [List.nil_append] at hw
  unfold fanIn
  rw [hw, ← filterMap_jobEntry_keys]
  exact h.allPrints_perm.map _

theorem IsRun.merged_eq {A : AutogenOps α σ δ τ} {opts : Options} {indexed : List α}
    {dist : List (List Nat)} {received unread : List (AutogenResult σ δ τ × Nat)}
    (h : IsRun A opts indexed dist received unread) :
    (fanIn A opts indexed received).merged = indexed.map (slotOf A opts) := by
  have hm := (fanIn_foldl A opts received
    { merged := List.replicate indexed.length {}, root := A.emptyDefTree }).1
  have hp := h.allPrints_perm
  have hkeys : ((allPrints received).map Prod.fst).Nodup := by
    have : ((allPrints received).map Prod.fst).Perm
        ((List.range indexed.length).filter (fun i => (jobEntry A opts indexed i).isSome)) := by
      rw [← filterMap_jobEntry_keys]
      exact hp.map _
    exact this.nodup_iff.2 (List.Nodup.filter _ (List.nodup_range _))
  unfold fanIn
  rw [hm]
  apply List.ext_getElem?
  intro i
  by_cases hi : i < indexed.length
  · rw [List.getElem?_map, List.getElem?_eq_getElem hi, Option.map_some']
    have hje := jobEntry_of_lt A opts indexed i hi
    by_cases hs : skipsJob A opts indexed[i] = true
    · have hnot : i ∉ (allPrints received).map Prod.fst := by
        intro hmem
        obtain ⟨p, hp1, hp2⟩ := List.mem_map.1 hmem
        obtain ⟨j, _, hj⟩ := List.mem_filterMap.1 (hp.subset hp1)
        have := jobEntry_fst A opts indexed j p hj
        rw [hp2] at this
        subst this
        rw [hje] at hj
        simp [hs] at hj
      rw [setFold_of_not_mem _ _ _ hnot]
      simp [slotOf, hs, hi]
    · have hmem : (i, serializeFile A opts indexed[i]) ∈ allPrints received := by
        apply hp.symm.subset
        apply List.mem_filterMap.2
        exact ⟨i, List.mem_range.2 hi, by simp [hje, hs]⟩
      rw [setFold_of_mem _ _ _ _ hkeys hmem (by simpa using hi)]
      simp [slotOf, hs]
  · have h1 : indexed.length ≤ i := Nat.le_of_not_lt hi
    rw [List.getElem?_eq_none (by simpa [setFold_length] using h1),
      List.getElem?_eq_none (by simpa using h1)]

theorem fanIn_alone (A : AutogenOps α σ δ τ) (opts : Options) (indexed : List α) (i : Nat)
    (hi : i < indexed.length) :
    (fanIn A opts indexed [worker A opts indexed [i]]).merged[i]? =
      some (slotOf A opts indexed[i]) := by
  have hm := (fanIn_foldl A opts [worker A opts indexed [i]]
    { merged := List.replicate indexed.length {}, root := A.emptyDefTree }).1
  unfold fanIn
  rw [hm]
  have hp : allPrints [worker A opts indexed [i]] = (jobEntry A opts indexed i).toList := by
    simp only [allPrints, List.flatMap_cons, List.flatMap_nil, List.append_nil, worker_prints]
    cases hj : jobEntry A opts indexed i <;> simp [List.filterMap_cons, hj]
  rw [hp, jobEntry_of_lt A opts indexed i hi]
  by_cases hs : skipsJob A opts indexed[i] = true
  · simp [slotOf, hs, hi]
  · simp [slotOf, hs, hi]

theorem testRun_isRun :
    IsRun testOps classlistOpts testFiles testDist testEnvelopes [] :=
  ⟨by decide, by simp [testEnvelopes], by simp⟩

theorem testRun2_isRun :
    IsRun testOps classlistOpts testFiles testDist2
      [worker testOps classlistOpts testFiles [0, 1, 2]]
      [worker testOps classlistOpts testFiles [], worker testOps classlistOpts testFiles []] :=
  ⟨by decide, by simp [testDist2], by decide⟩

end AutogenProofs

/-- C1 fails: in a run over three files of which file 1 is a package file, the
index 1 is popped by a worker but occurs in no `prints` entry and is never
written into `merged`; indices 0 and 2 are written once each. -/
theorem runAutogen_skipped_job_not_written :
    IsRun testOps classlistOpts testFiles testDist testEnvelopes [] ∧
    (fanIn testOps classlistOpts testFiles testEnvelopes).writes = [2, 0] ∧
    (fanIn testOps classlistOpts testFiles testEnvelopes).writes.count 1 = 0 ∧
    ((allPrints testEnvelopes).map Prod.fst).count 1 = 0 ∧
    ¬ (∀ (dist : List (List Nat))
        (received unread : List (AutogenResult Unit Unit (List String) × Nat)),
        IsRun testOps classlistOpts testFiles dist received unread →
        ∀ i, i < testFiles.length →
          (fanIn testOps classlistOpts testFiles received).writes.count i = 1) := by
  refine ⟨testRun_isRun, by decide, by decide, by decide, ?_⟩
  intro h
  exact absurd (h testDist testEnvelopes [] testRun_isRun 1 (by decide)) (by decide)

/-- C1 (amended): for every number of input files and every split of the job
indices among the worker closures, after the fan-in loop `merged` still has one
slot per file, no index is written twice and none outside `0..N-1` is written;
the index of a file that passes the worker-local filter is written exactly
once, while the index of a file the filter skips (a package file, or an RBI
file under an autogen version below `VERSION_INCLUDE_RBI`) occurs in no
`prints` entry, is never written and its slot keeps the default-constructed
value. The indices written are exactly those of the `prints` entries of all
worker envelopes. -/
theorem runAutogen_coverage {α σ δ τ : Type} (A : AutogenOps α σ δ τ) (opts : Options)
    (indexed : List α) (dist : List (List Nat))
    (received unread : List (AutogenResult σ δ τ × Nat))
    (h : IsRun A opts indexed dist received unread) :
    (fanIn A opts indexed received).merged.length = indexed.length ∧
    (∀ i, (fanIn A opts indexed received).writes.count i ≤ 1) ∧
    (∀ i, indexed.length ≤ i → (fanIn A opts indexed received).writes.count i = 0) ∧
    (∀ i (hi : i < indexed.length),
      (fanIn A opts indexed received).writes.count i =
        if skipsJob A opts indexed[i] then 0 else 1) ∧
    (∀ i (hi : i < indexed.length), skipsJob A opts indexed[i] = true →
      (fanIn A opts indexed received).merged[i]? = some {}) ∧
    (∀ i, ((allPrints (dist.map (worker A opts indexed))).map Prod.fst).count i =
      (fanIn A opts indexed received).writes.count i) := by
  have hw := h.writes_perm
  have hnd : ((List.range indexed.length).filter
      (fun i => (jobEntry A opts indexed i).isSome)).Nodup :=
    List.Nodup.filter _ (List.nodup_range _)
  have hcount : ∀ i, (fanIn A opts indexed received).writes.count i =
      ((List.range indexed.length).filter
        (fun i => (jobEntry A opts indexed i).isSome)).count i :=
    fun i => hw.count_eq i
  refine ⟨?_, ?_, ?_, ?_, ?_, ?_⟩
  · rw [h.merged_eq, List.length_map]
  · intro i
    rw [hcount]
    exact List.nodup_iff_count_le_one.1 hnd i
  · intro i hi
    rw [hcount, List.count_eq_zero]
    intro hmem
    have := List.mem_range.1 (List.mem_filter.1 hmem).1
    omega
  · intro i hi
    rw [hcount]
    have hje := jobEntry_of_lt A opts indexed i hi
    by_cases hs : skipsJob A opts indexed[i] = true
    · rw [if_pos hs, List.count_eq_zero]
      intro hmem
      have := (List.mem_filter.1 hmem).2
      simp [hje, hs] at this
    · rw [if_neg hs]
      apply List.count_eq_one_of_mem hnd
      exact List.mem_filter.2 ⟨List.mem_range.2 hi, by simp [hje, hs]⟩
  · intro i hi hs
    rw [h.merged_eq, List.getElem?_map, List.getElem?_eq_getElem hi]
    simp [slotOf, hs]
  · intro i
    rw [hcount, allPrints_workers, filterMap_jobEntry_keys]
    exact (h.1.filter _).count_eq i

/-- Witness of the amended C1 on the three test files: the package file at
index 1 is never written, the file at index 2 is written once. -/
theorem runAutogen_coverage_witness :
    (fanIn testOps classlistOpts testFiles testEnvelopes).merged.length = 3 ∧
    (fanIn testOps classlistOpts testFiles testEnvelopes).writes.count 2 = 1 ∧
    (fanIn testOps classlistOpts testFiles testEnvelopes).writes.count 1 = 0 :=
  have h := runAutogen_coverage testOps classlistOpts testFiles testDist testEnvelopes []
    testRun_isRun
  ⟨h.1, (h.2.2.2.1 2 (by decide)).trans (by decide),
    (h.2.2.2.1 1 (by decide)).trans (by decide)⟩

/-- C2: for every split of the job indices among the workers and every order
in which the envelopes are popped from `resultq`, slot `i` of `merged` after
the fan-in holds what file `i` yields on its own: the `Serialized` value built
from `indexed[i]`, which is also the content of slot `i` after a run in which a
single worker pops the single job `i`. Hence two runs over the same inputs
yield the same `merged` array, whatever their worker counts, splits and
completion orders. -/
theorem runAutogen_order_preservation {α σ δ τ : Type} (A : AutogenOps α σ δ τ)
    (opts : Options) (indexed : List α)
    (dist : List (List Nat)) (received unread : List (AutogenResult σ δ τ × Nat))
    (h : IsRun A opts indexed dist received unread)
    (dist2 : List (List Nat)) (received2 unread2 : List (AutogenResult σ δ τ × Nat))
    (h2 : IsRun A opts indexed dist2 received2 unread2) :
    (fanIn A opts indexed received).merged = indexed.map (slotOf A opts) ∧
    (∀ i (hi : i < indexed.length),
      (fanIn A opts indexed received).merged[i]? =
        (fanIn A opts indexed [worker A opts indexed [i]]).merged[i]? ∧
      (skipsJob A opts indexed[i] = false →
        (fanIn A opts indexed received).merged[i]? =
          some (serializeFile A opts indexed[i]))) ∧
    (fanIn A opts indexed received).merged = (fanIn A opts indexed received2).merged := by
  refine ⟨h.merged_eq, ?_, by rw [h.merged_eq, h2.merged_eq]⟩
  intro i hi
  have hslot : (fanIn A opts indexed received).merged[i]? =
      some (slotOf A opts indexed[i]) := by
    rw [h.merged_eq, List.getElem?_map, List.getElem?_eq_getElem hi]
    rfl
  refine ⟨by rw [hslot, fanIn_alone A opts indexed i hi], fun hs => ?_⟩
  rw [hslot]
  simp [slotOf, hs]

/-- Witness of C2: two workers with the envelopes popped in push order, against
three workers of which one processes everything and two push empty envelopes
that the fan-in never reads. -/
theorem runAutogen_order_preservation_witness :
    (fanIn testOps classlistOpts testFiles testEnvelopes).merged =
      (fanIn testOps classlistOpts testFiles
        [worker testOps classlistOpts testFiles [0, 1, 2]]).merged ∧
    (fanIn testOps classlistOpts testFiles testEnvelopes).merged =
      [{ classlist := ["B", "A"] }, {}, { classlist := ["A", "C"] }] :=
  have h := runAutogen_order_preservation testOps classlistOpts testFiles
    testDist testEnvelopes [] testRun_isRun
    testDist2 [worker testOps classlistOpts testFiles [0, 1, 2]]
    [worker testOps classlistOpts testFiles [], worker testOps classlistOpts testFiles []]
    testRun2_isRun
  ⟨h.2.2, h.1.trans (by decide)⟩

/-- C3: each worker closure pushes one envelope, tagged with the number of
indices it popped from `fileq`; every loop iteration adds one to the tag,
also when the worker-local filter rejects the job and nothing is appended to
`prints`. Hence the tags of all envelopes add up to `N`, the capacity of
`resultq`, and so do the tags of the envelopes the fan-in reads. -/
theorem runAutogen_queue_accounting {α σ δ τ : Type} (A : AutogenOps α σ δ τ)
    (opts : Options) (indexed : List α)
    (dist : List (List Nat)) (received unread : List (AutogenResult σ δ τ × Nat))
    (h : IsRun A opts indexed dist received unread) :
    (dist.map (worker A opts indexed)).length = dist.length ∧
    (∀ popped : List Nat, (worker A opts indexed popped).2 = popped.length) ∧
    (∀ (st : AutogenResult σ δ τ × Nat) (idx : Nat),
      (workerIteration A opts indexed st idx).2 = st.2 + 1) ∧
    (∀ (st : AutogenResult σ δ τ × Nat) (idx : Nat) (hi : idx < indexed.length),
      skipsJob A opts indexed[idx] = true →
      workerIteration A opts indexed st idx = (st.1, st.2 + 1)) ∧
    ((dist.map (worker A opts indexed)).map Prod.snd).sum = indexed.length ∧
    (received.map Prod.snd).sum = indexed.length := by
  have htotal : ((dist.map (worker A opts indexed)).map Prod.snd).sum = indexed.length := by
    have : (dist.map (worker A opts indexed)).map Prod.snd = dist.map List.length := by
      rw [List.map_map]
      exact List.map_congr_left (fun l _ => worker_n A opts indexed l)
    rw [this, ← List.length_flatten, h.1.length_eq, List.length_range]
  refine ⟨List.length_map _ _, worker_n A opts indexed,
    fun st idx => (workerIteration_eq A opts indexed st idx).1, ?_, htotal, ?_⟩
  · intro st idx hi hs
    unfold workerIteration
    rw [List.getElem?_eq_getElem hi]
    unfold skipsJob at hs
    by_cases hp : A.isPackage indexed[idx] = true
    · simp [hp]
    · simp only [hp] at hs
      by_cases hr : (decide (autogenVersion A opts < A.VERSION_INCLUDE_RBI) &&
          A.isRBI indexed[idx]) = true
      · simp [hp, hr]
      · simp [hr] at hs
  · have hsum : ((received ++ unread).map Prod.snd).sum = indexed.length := by
      rw [← htotal]
      exact (h.2.1.map Prod.snd).sum_eq
    have hz : (unread.map Prod.snd).sum = 0 := by
      rw [List.sum_eq_zero_iff]
      intro x hx
      obtain ⟨e, he, rfl⟩ := List.mem_map.1 hx
      exact h.2.2 e he
    rw [List.map_append, List.sum_append, hz, Nat.add_zero] at hsum
    exact hsum

/-- Witness of C3 on the three test files: the first worker pops the package
file 1 as well as file 2, its tag is 2 although it has a single `prints`
entry, and the tags add up to 3. -/
theorem runAutogen_queue_accounting_witness :
    (worker testOps classlistOpts testFiles [2, 1]).2 = 2 ∧
    (worker testOps classlistOpts testFiles [2, 1]).1.prints.length = 1 ∧
    (testEnvelopes.map Prod.snd).sum = 3 :=
  have h := runAutogen_queue_accounting testOps classlistOpts testFiles testDist
    testEnvelopes [] testRun_isRun
  ⟨h.2.1 [2, 1], by decide, h.2.2.2.2.2⟩

/-! ## Theorems: the class-list output -/

section ClasslistProofs

variable {σ δ τ : Type}

theorem mergedClasslist_foldl (merged : List (Serialized σ δ)) (acc : List String) :
    merged.foldl (fun acc el => acc ++ el.classlist) acc =
      acc ++ merged.flatMap (fun el => el.classlist) := by
  induction merged generalizing acc with
  | nil => simp
  | cons el rest ih => simp [ih, List.flatMap_cons, List.append_assoc]

theorem mergedClasslist_eq (merged : List (Serialized σ δ)) :
    mergedClasslist merged = merged.flatMap (fun el => el.classlist) := by
  simp [mergedClasslist, mergedClasslist_foldl]

theorem mem_unique (l : List String) (s : String) : s ∈ unique l ↔ s ∈ l := by
  induction l using unique.induct with
  | case1 => simp [unique]
  | case2 a => simp [unique]
  | case3 a rest ih =>
    rw [unique, if_pos rfl, ih]
    simp
  | case4 a b rest hab ih =>
    rw [unique, if_neg hab, List.mem_cons, ih, List.mem_cons (a := s) (b := a)]

theorem unique_strict (l : List String) (h : l.Pairwise stringLE) :
    (unique l).Pairwise (fun a b => a < b) := by
  induction l using unique.induct with
  | case1 => simp [unique]
  | case2 a => simp [unique]
  | case3 a rest ih =>
    rw [unique, if_pos rfl]
    exact ih (List.pairwise_cons.1 h).2
  | case4 a b rest hab ih =>
    rw [unique, if_neg hab, List.pairwise_cons]
    obtain ⟨ha, hrest⟩ := List.pairwise_cons.1 h
    refine ⟨fun x hx => ?_, ih hrest⟩
    have hx2 : x ∈ b :: rest := (mem_unique _ _).1 hx
    have hle : a ≤ x := String.le_iff_toList_le.2 (ha x hx2)
    refine lt_of_le_of_ne hle ?_
    intro hax
    subst hax
    have hab2 : a ≤ b := String.le_iff_toList_le.2 (ha b (List.mem_cons_self _ _))
    rcases List.mem_cons.1 hx2 with hb | hr
    · exact hab hb
    · have hba : b ≤ a := String.le_iff_toList_le.2 ((List.pairwise_cons.1 hrest).1 a hr)
      exact hab (le_antisymm hab2 hba)

theorem classlistNames_perm (m1 m2 : List (Serialized σ δ)) (h : m1.Perm m2) :
    classlistNames m1 = classlistNames m2 := by
  unfold classlistNames
  congr 1
  have hp : (mergedClasslist m1).Perm (mergedClasslist m2) := by
    rw [mergedClasslist_eq, mergedClasslist_eq]
    exact List.Perm.flatMap_right _ h
  apply List.eq_of_perm_of_sorted (r := stringLE)
  · exact ((List.perm_insertionSort _ _).trans hp).trans (List.perm_insertionSort _ _).symm
  · exact List.sorted_insertionSort _ _
  · exact List.sorted_insertionSort _ _

end ClasslistProofs

/-- C4: for every `merged` array the class names printed for the
`AutogenClasslist` option are strictly increasing (so sorted and free of
duplicates), a name is printed exactly when it occurs in the `classlist` of
some slot of `merged`, and the printed sequence is the same for every
permutation of the slots and for any two runs over the same inputs, however
the files were split among the workers. -/
theorem classlist_sorted_unique {α σ δ τ : Type} (merged : List (Serialized σ δ)) :
    (classlistNames merged).Pairwise (fun a b => a < b) ∧
    (classlistNames merged).Nodup ∧
    (∀ s : String, s ∈ classlistNames merged ↔ ∃ el ∈ merged, s ∈ el.classlist) ∧
    (∀ merged2 : List (Serialized σ δ), merged2.Perm merged →
      classlistNames merged2 = classlistNames merged) ∧
    (∀ (A : AutogenOps α σ δ τ) (opts : Options) (indexed : List α)
      (dist dist2 : List (List Nat))
      (received unread received2 unread2 : List (AutogenResult σ δ τ × Nat)),
      IsRun A opts indexed dist received unread →
      IsRun A opts indexed dist2 received2 unread2 →
      classlistNames (fanIn A opts indexed received).merged =
        classlistNames (fanIn A opts indexed received2).merged) := by
  have hs : (classlistNames merged).Pairwise (fun a b => a < b) :=
    unique_strict _ (List.sorted_insertionSort _ _)
  refine ⟨hs, ?_, ?_, ?_, ?_⟩
  · exact hs.imp (fun h => ne_of_lt h)
  · intro s
    unfold classlistNames fast_sort
    rw [mem_unique, (List.perm_insertionSort _ _).mem_iff, mergedClasslist_eq,
      List.mem_flatMap]
  · intro merged2 h
    exact classlistNames_perm merged2 merged h
  · intro A opts indexed dist dist2 received unread received2 unread2 h1 h2
    rw [h1.merged_eq, h2.merged_eq]

/-- Witness of C4: the three test files yield the names `A`, `B`, `C`, also
with the slots of `merged` in reverse order. -/
theorem classlist_sorted_unique_witness :
    classlistNames (fanIn testOps classlistOpts testFiles testEnvelopes).merged =
      ["A", "B", "C"] ∧
    classlistNames (fanIn testOps classlistOpts testFiles testEnvelopes).merged.reverse =
      classlistNames (fanIn testOps classlistOpts testFiles testEnvelopes).merged :=
  ⟨by decide,
    (classlist_sorted_unique (α := TestFile) (τ := List String)
      (fanIn testOps classlistOpts testFiles testEnvelopes).merged).2.2.2.1 _
      (List.reverse_perm _)⟩

/-! ## Theorems: sigil rendering and the suggest-typed pass -/

/-- C11: on the five real levels `levelToSigil` and `strictLevelToSigil` return
the same canonical short name, `Ignore` giving "ignore", `False` "false",
`True` "true", `Strict` "strict" and `Strong` "strong", and two real levels
with the same rendering are equal. -/
theorem sigil_of_real_levels :
    (levelToSigil .Ignore = .ok "ignore" ∧ strictLevelToSigil .Ignore = .ok "ignore") ∧
    (levelToSigil .False = .ok "false" ∧ strictLevelToSigil .False = .ok "false") ∧
    (levelToSigil .True = .ok "true" ∧ strictLevelToSigil .True = .ok "true") ∧
    (levelToSigil .Strict = .ok "strict" ∧ strictLevelToSigil .Strict = .ok "strict") ∧
    (levelToSigil .Strong = .ok "strong" ∧ strictLevelToSigil .Strong = .ok "strong") ∧
    (∀ l : StrictLevel, l.isReal = true →
      levelToSigil l = strictLevelToSigil l ∧ ∃ s, levelToSigil l = .ok s) ∧
    (∀ l1 l2 : StrictLevel, l1.isReal = true → l2.isReal = true →
      (levelToSigil l1 = levelToSigil l2 ∨ strictLevelToSigil l1 = strictLevelToSigil l2) →
      l1 = l2) := by
  refine ⟨⟨rfl, rfl⟩, ⟨rfl, rfl⟩, ⟨rfl, rfl⟩, ⟨rfl, rfl⟩, ⟨rfl, rfl⟩, ?_, ?_⟩
  · intro l hl
    cases l <;> first
      | exact absurd hl (by decide)
      | exact ⟨rfl, _, rfl⟩
  · intro l1 l2 h1 h2 h
    cases l1 <;> first
      | exact absurd h1 (by decide)
      | (cases l2 <;> first
          | exact absurd h2 (by decide)
          | rfl
          | exact absurd h (by decide))

/-- Witness of C11 at `Strict` and `Strong`: both functions agree on each and
the two renderings differ. -/
theorem sigil_of_real_levels_witness :
    (levelToSigil .Strong = strictLevelToSigil .Strong ∧
      ∃ s, levelToSigil .Strong = .ok s) ∧
    levelToSigil .Strict ≠ levelToSigil .Strong :=
  ⟨sigil_of_real_levels.2.2.2.2.2.1 .Strong (by decide),
    fun h => absurd
      (sigil_of_real_levels.2.2.2.2.2.2 .Strict .Strong (by decide) (by decide) (Or.inl h))
      (by decide)⟩

/-- C12 fails at the sentinel `Stdlib`: both `levelToSigil` and
`strictLevelToSigil` return the string "__STDLIB_INTERNAL" for it instead of
raising. -/
theorem sigil_of_Stdlib_is_returned :
    StrictLevel.Stdlib.isSentinel = true ∧
    levelToSigil .Stdlib = .ok "__STDLIB_INTERNAL" ∧
    strictLevelToSigil .Stdlib = .ok "__STDLIB_INTERNAL" ∧
    ¬ (∀ l : StrictLevel,
        levelToSigil l = .error shouldNeverHappen ↔ l.isSentinel = true) := by
  refine ⟨rfl, rfl, rfl, ?_⟩
  intro h
  exact absurd ((h .Stdlib).2 rfl) (by decide)

/-- C12 (amended): `levelToSigil`, and likewise `strictLevelToSigil`, raises
"Should never happen" if and only if the level is one of the sentinels `None`,
`Internal`, `Max`, `Autogenerated`; for these no string is returned, and for
the sentinel `Stdlib` the string "__STDLIB_INTERNAL" is returned. -/
theorem sigil_rejects_sentinels_except_Stdlib (l : StrictLevel) :
    (levelToSigil l = .error "Should never happen" ↔
      (l.isSentinel = true ∧ l ≠ .Stdlib)) ∧
    (strictLevelToSigil l = .error "Should never happen" ↔
      (l.isSentinel = true ∧ l ≠ .Stdlib)) ∧
    ((l.isSentinel = true ∧ l ≠ .Stdlib) →
      ∀ s : String, levelToSigil l ≠ .ok s ∧ strictLevelToSigil l ≠ .ok s) ∧
    levelToSigil .Stdlib = .ok "__STDLIB_INTERNAL" ∧
    strictLevelToSigil .Stdlib = .ok "__STDLIB_INTERNAL" := by
  cases l <;> simp [levelToSigil, strictLevelToSigil, shouldNeverHappen, StrictLevel.isSentinel]

/-- Witness of the amended C12 at the sentinel `Max`: no string is returned. -/
theorem sigil_rejects_sentinels_except_Stdlib_witness :
    levelToSigil .Max ≠ .ok "max" ∧ strictLevelToSigil .Max ≠ .ok "max" :=
  (sigil_rejects_sentinels_except_Stdlib .Max).2.2.1 ⟨by decide, by decide⟩ "max"

/-- C13: for a file whose `minErrorLevel` lies between `None` and `Max` and for
any `originalSigil`, the guards and the calls of `levelMinusOne`,
`levelToRecommendation` and `levelToSigil` in the suggest-typed loop never
raise, and a sigil that is proposed is one of "ignore", "false", "true",
"strict": it is the rendering of a real level not above `Strict`, never
"strong" and never the name of a sentinel. -/
theorem suggestTyped_never_raises (minErrorLevel originalSigil : StrictLevel) (loc : Loc)
    (errorBuilt : Bool) (hlo : StrictLevel.None ≤ minErrorLevel)
    (hhi : minErrorLevel ≤ StrictLevel.Max) :
    ∃ r, suggestTyped minErrorLevel originalSigil loc errorBuilt = .ok r ∧
      ∀ s, r = some s →
        s.sigil ∈ ["ignore", "false", "true", "strict"] ∧ s.sigil ≠ "strong" ∧
        s.level.isReal = true ∧ s.level ≤ StrictLevel.Strict ∧
        levelToSigil s.level = .ok s.sigil := by
  cases minErrorLevel <;> first
    | exact absurd hlo (by decide)
    | exact absurd hhi (by decide)
    | (cases originalSigil <;> cases errorBuilt <;>
        refine ⟨_, rfl, ?_⟩ <;> intro s hs <;> cases hs <;>
        exact ⟨by simp, by dsimp only; decide, rfl, by dsimp only; decide, rfl⟩)

/-- Witness of C13: a file without errors (`minErrorLevel` is `Max`) marked
`true` is proposed "strict". -/
theorem suggestTyped_never_raises_witness :
    ∃ r, suggestTyped .Max .True ⟨0, 13⟩ true = .ok r ∧
      ∀ s, r = some s →
        s.sigil ∈ ["ignore", "false", "true", "strict"] ∧ s.sigil ≠ "strong" ∧
        s.level.isReal = true ∧ s.level ≤ StrictLevel.Strict ∧
        levelToSigil s.level = .ok s.sigil :=
  suggestTyped_never_raises .Max .True ⟨0, 13⟩ true (by decide) (by decide)

/-- C14: whenever the suggest-typed loop proposes a level for a file, that
level differs from the file's `originalSigil`; a file marked `strict` whose
`minErrorLevel` is `Strong` or `Max` gets no suggestion, and neither does a
file with `minErrorLevel <= Ignore` or with `originalSigil > Max`. -/
theorem suggestTyped_differs_from_original (minErrorLevel originalSigil : StrictLevel)
    (loc : Loc) (errorBuilt : Bool) :
    (∀ s, suggestTyped minErrorLevel originalSigil loc errorBuilt = .ok (some s) →
      s.level ≠ originalSigil) ∧
    (originalSigil = .Strict → (minErrorLevel = .Strong ∨ minErrorLevel = .Max) →
      suggestTyped minErrorLevel originalSigil loc errorBuilt = .ok none) ∧
    (minErrorLevel ≤ StrictLevel.Ignore →
      suggestTyped minErrorLevel originalSigil loc errorBuilt = .ok none) ∧
    (originalSigil > StrictLevel.Max →
      suggestTyped minErrorLevel originalSigil loc errorBuilt = .ok none) := by
  refine ⟨?_, ?_, ?_, ?_⟩
  · intro s hs
    cases minErrorLevel <;> cases originalSigil <;> cases errorBuilt <;>
      cases hs <;> dsimp only <;> decide
  · intro ho hm
    subst ho
    rcases hm with hm | hm <;> subst hm <;> rfl
  · intro h
    simp [suggestTyped, h]
  · intro h
    cases originalSigil <;> first
      | exact absurd h (by decide)
      | (cases minErrorLevel <;> rfl)

/-- Witness of C14: for a file marked `true` that has no errors the proposed
level is `Strict`, not `True`; marked `strict` it gets no suggestion. -/
theorem suggestTyped_differs_from_original_witness :
    (∀ s, suggestTyped .Max .True ⟨0, 13⟩ true = .ok (some s) → s.level ≠ .True) ∧
    suggestTyped .Max .Strict ⟨0, 13⟩ true = .ok none :=
  ⟨(suggestTyped_differs_from_original .Max .True ⟨0, 13⟩ true).1,
    (suggestTyped_differs_from_original .Max .Strict ⟨0, 13⟩ true).2.1 rfl (Or.inr rfl)⟩

/-! ## Theorems: the metrics status -/

/-- C18, the code at the failing input: in a non-LSP run with a metrics file
configured, three diagnostics, no critical error and suppression off, the
status written is "Success" while the exit code is 1; with a critical error
only in the minimize baseline state the status is "Success" and the exit code
10. The status "Failure" is never written, since `returnCode` is still 0 when
the status is chosen. A status "Error" does go with exit code 10. -/
theorem metrics_status_disagrees_with_exit_code :
    realmainEnd { totalErrors := 3 } none { metricsFile := "metrics.json" } =
      { status := some "Success", exitCode := 1 } ∧
    realmainEnd {} (some { hadCriticalError := true }) { metricsFile := "metrics.json" } =
      { status := some "Success", exitCode := 10 } ∧
    (∀ (gs : GlobalState) (gsForMinimize : Option GlobalState) (opts : Options),
      ¬ (realmainEnd gs gsForMinimize opts).status = some "Failure") ∧
    (∀ (gs : GlobalState) (gsForMinimize : Option GlobalState) (opts : Options),
      ¬ ((realmainEnd gs gsForMinimize opts).status = some "Error" ∧
        ¬ (realmainEnd gs gsForMinimize opts).exitCode = 10)) ∧
    ¬ (∀ (gs : GlobalState) (gsForMinimize : Option GlobalState) (opts : Options),
        (realmainEnd gs gsForMinimize opts).status = some "Success" →
        (realmainEnd gs gsForMinimize opts).exitCode = 0) := by
  refine ⟨by decide, by decide, ?_, ?_,
    fun h => absurd (h { totalErrors := 3 } none { metricsFile := "metrics.json" } (by decide))
      (by decide)⟩
  · intro gs m opts
    unfold realmainEnd metricsStatus
    by_cases hf : opts.metricsFile.isEmpty = true <;> by_cases hc : gs.hadCriticalError = true <;>
      simp [hf, hc]
  · intro gs m opts
    unfold realmainEnd metricsStatus
    by_cases hf : opts.metricsFile.isEmpty = true <;> by_cases hc : gs.hadCriticalError = true <;>
      simp [hf, hc, exitStatus]

/-! ## Theorems: RBI files in the autogen output -/

section RbiProofs

variable {α σ δ τ κ : Type}

end RbiProofs

theorem charAt_of_lt (source : List Char) (i : Nat) (h : i < source.length) :
    charAt source i = .ok source[i] := by
  simp [charAt, List.getElem?_eq_getElem h]

theorem charAt_length (source : List Char) :
    charAt source source.length = .ok (Char.ofNat 0) := by
  simp [charAt]

theorem findFrom_some (pattern : List Char) (l : List Char) (pos p : Nat)
    (h : findFrom pattern l pos = some p) :
    ∃ k, p = pos + k ∧ pattern <+: l.drop k ∧ ∀ q, q < k → ¬ pattern <+: l.drop q := by
  induction l generalizing pos with
  | nil =>
    unfold findFrom at h
    split at h
    · rename_i hp
      cases h
      exact ⟨0, rfl, by simpa using hp, fun q hq => absurd hq (Nat.not_lt_zero q)⟩
    · cases h
  | cons c rest ih =>
    unfold findFrom at h
    split at h
    · rename_i hp
      cases h
      exact ⟨0, rfl, by simpa using hp, fun q hq => absurd hq (Nat.not_lt_zero q)⟩
    · rename_i hp
      obtain ⟨k, hk, hpre, hmin⟩ := ih (pos + 1) h
      refine ⟨k + 1, by omega, by simpa using hpre, ?_⟩
      intro q hq
      cases q with
      | zero => simpa using hp
      | succ q => simpa using hmin q (by omega)

theorem findFrom_none (pattern : List Char) (l : List Char) (pos : Nat)
    (h : findFrom pattern l pos = none) : ∀ q, ¬ pattern <+: l.drop q := by
  induction l generalizing pos with
  | nil =>
    unfold findFrom at h
    split at h
    · cases h
    · rename_i hp
      intro q
      simpa using hp
  | cons c rest ih =>
    unfold findFrom at h
    split at h
    · cases h
    · rename_i hp
      intro q
      cases q with
      | zero => simpa using hp
      | succ q => simpa using ih (pos + 1) h q

theorem find_eq_of_first (pattern source : List Char) (p : Nat)
    (h : FirstOccurrence pattern source p) : find source pattern = some p := by
  unfold find
  cases hf : findFrom pattern source 0 with
  | none => exact absurd h.1 (findFrom_none pattern source 0 hf p)
  | some p2 =>
    obtain ⟨k, hk, hpre, hmin⟩ := findFrom_some pattern source 0 p2 hf
    have hp2 : p2 = k := by omega
    subst hp2
    rcases Nat.lt_trichotomy p2 p with hlt | heq | hgt
    · exact absurd hpre (h.2 p2 hlt)
    · rw [heq]
    · exact absurd h.1 (hmin p hgt)

theorem first_of_occurs (pattern source : List Char) (q : Nat)
    (h : OccursAt pattern source q) : ∃ p, FirstOccurrence pattern source p := by
  cases hf : findFrom pattern source 0 with
  | none => exact absurd h (findFrom_none pattern source 0 hf q)
  | some p =>
    obtain ⟨k, hk, hpre, hmin⟩ := findFrom_some pattern source 0 p hf
    have hpk : p = k := by omega
    subst hpk
    exact ⟨p, hpre, hmin⟩

theorem scanBack_of_nearest (source : List Char) (start b : Nat) (reads : List Nat)
    (hlt : start < source.length) (hb : NearestHash source start b) :
    (scanBack source start reads).result = .ok b ∧
    ∀ i ∈ (scanBack source start reads).reads, i ∈ reads ∨ i < source.length := by
  induction start generalizing reads with
  | zero =>
    obtain ⟨hle, hhash, _⟩ := hb
    have hb0 : b = 0 := by omega
    subst hb0
    have hc : charAt source 0 = .ok '#' := by
      rw [charAt_of_lt source 0 hlt]
      have := List.getElem?_eq_some.1 hhash
      obtain ⟨_, hv⟩ := this
      rw [hv]
    simp only [scanBack, hc, if_true]
    refine ⟨by first | rfl | trivial, ?_⟩
    intro i hi
    rcases List.mem_append.1 hi with h | h
    · exact Or.inl h
    · simp at h; omega
  | succ s ih =>
    obtain ⟨hle, hhash, hnone⟩ := hb
    rw [scanBack, charAt_of_lt source (s + 1) hlt]
    simp only []
    by_cases hc : source[s + 1] = '#'
    · have hbs : b = s + 1 := by
        by_contra hne
        have hlt2 : b < s + 1 := by omega
        exact hnone (s + 1) hlt2 (Nat.le_refl _)
          (List.getElem?_eq_some.2 ⟨hlt, hc⟩)
      subst hbs
      simp only [hc, if_true]
      refine ⟨by first | rfl | trivial, ?_⟩
      intro i hi
      rcases List.mem_append.1 hi with h | h
      · exact Or.inl h
      · simp at h; omega
    · have hbs : b ≤ s := by
        by_contra hne
        have hbeq : b = s + 1 := by omega
        subst hbeq
        obtain ⟨_, hv⟩ := List.getElem?_eq_some.1 hhash
        exact hc hv
      simp only [hc, if_false]
      obtain ⟨h1, h2⟩ := ih (reads ++ [s + 1]) (by omega)
        ⟨hbs, hhash, fun j hj1 hj2 => hnone j hj1 (by omega)⟩
      refine ⟨h1, ?_⟩
      intro i hi
      rcases h2 i hi with h | h
      · rcases List.mem_append.1 h with h | h
        · exact Or.inl h
        · simp at h; omega
      · exact Or.inr h

theorem scanLine_spec (l : List Char) (pos : Nat) (reads : List Nat) :
    ∃ k, (scanLine l pos reads).1 = pos + k ∧ k ≤ l.length ∧
      (∀ j, j < k → l[j]? ≠ some '\n') ∧ (k < l.length → l[k]? = some '\n') ∧
      (∀ i ∈ (scanLine l pos reads).2, i ∈ reads ∨ (pos ≤ i ∧ i < pos + l.length)) := by
  induction l generalizing pos reads with
  | nil =>
    exact ⟨0, rfl, Nat.le_refl _, fun j hj => absurd hj (Nat.not_lt_zero j),
      fun h => absurd h (Nat.lt_irrefl _), fun i hi => Or.inl hi⟩
  | cons c rest ih =>
    unfold scanLine
    by_cases hc : c = '\n'
    · simp only [hc, if_true]
      refine ⟨0, rfl, Nat.zero_le _, fun j hj => absurd hj (Nat.not_lt_zero j),
        fun _ => by simp, ?_⟩
      intro i hi
      rcases List.mem_append.1 hi with h | h
      · exact Or.inl h
      · simp at h; subst h; exact Or.inr ⟨Nat.le_refl _, by simp⟩
    · simp only [hc, if_false]
      obtain ⟨k, hk1, hk2, hk3, hk4, hk5⟩ := ih (pos + 1) (reads ++ [pos])
      refine ⟨k + 1, by omega, by simpa using hk2, ?_, ?_, ?_⟩
      · intro j hj
        cases j with
        | zero => simpa using hc
        | succ j => simpa using hk3 j (by omega)
      · intro h
        simpa using hk4 (by simpa using h)
      · intro i hi
        rcases hk5 i hi with h | h
        · rcases List.mem_append.1 h with h | h
          · exact Or.inl h
          · simp at h; subst h; exact Or.inr ⟨Nat.le_refl _, by simp⟩
        · exact Or.inr ⟨by omega, by simp only [List.length_cons]; omega⟩

theorem first_of_find (pattern source : List Char) (p : Nat)
    (h : find source pattern = some p) : FirstOccurrence pattern source p := by
  obtain ⟨k, hk, hpre, hmin⟩ := findFrom_some pattern source 0 p h
  have hpk : p = k := by omega
  subst hpk
  exact ⟨hpre, hmin⟩

theorem nearest_exists (source : List Char) (p : Nat)
    (h : ∃ j, j ≤ p ∧ source[j]? = some '#') : ∃ b, NearestHash source p b := by
  induction p with
  | zero =>
    obtain ⟨j, hj, hc⟩ := h
    have hj0 : j = 0 := by omega
    subst hj0
    exact ⟨0, Nat.le_refl _, hc, fun i h1 h2 => absurd h1 (by omega)⟩
  | succ p ih =>
    by_cases hc : source[p + 1]? = some '#'
    · exact ⟨p + 1, Nat.le_refl _, hc, fun i h1 h2 => absurd h1 (by omega)⟩
    · obtain ⟨j, hj, hjc⟩ := h
      have hjp : j ≤ p := by
        by_contra hne
        have hjeq : j = p + 1 := by omega
        subst hjeq
        exact hc hjc
      obtain ⟨b, hb1, hb2, hb3⟩ := ih ⟨j, hjp, hjc⟩
      refine ⟨b, by omega, hb2, ?_⟩
      intro i h1 h2
      by_cases hi : i = p + 1
      · subst hi; exact hc
      · exact hb3 i h1 (by omega)

theorem occurs_typed_lt (source : List Char) (p : Nat)
    (h : OccursAt typedPattern source p) : p + 6 ≤ source.length := by
  have hl := List.IsPrefix.length_le h
  have h6 : typedPattern.length = 6 := by decide
  rw [h6, List.length_drop] at hl
  omega

theorem findSigil_of_first (source : List Char) (p b : Nat)
    (hp : FirstOccurrence typedPattern source p) (hb : NearestHash source p b) :
    ∃ e, LineEnd source b e ∧ b ≤ e ∧ e ≤ source.length ∧
      (findSigil source).result = .ok ⟨b, e⟩ ∧
      ∀ i ∈ (findSigil source).reads, i ≤ source.length := by
  have hplt : p < source.length := by have := occurs_typed_lt source p hp.1; omega
  have hblt : b < source.length := by have := hb.1; omega
  obtain ⟨hback, hbreads⟩ := scanBack_of_nearest source p b [] hplt hb
  obtain ⟨k, hk1, hk2, hk3, hk4, hk5⟩ :=
    scanLine_spec (source.drop b) b (scanBack source p []).reads
  rw [List.length_drop] at hk2 hk4 hk5
  have hreads : ∀ i ∈ (scanLine (source.drop b) b (scanBack source p []).reads).2,
      i < source.length := by
    intro i hi
    rcases hk5 i hi with h | h
    · rcases hbreads i h with h2 | h2
      · cases h2
      · exact h2
    · omega
  unfold findSigil
  rw [find_eq_of_first typedPattern source p hp]
  simp only [hback, hk1]
  by_cases hk : k < source.length - b
  · have hnl : source[b + k]? = some '\n' := by
      have := hk4 hk
      rwa [List.getElem?_drop] at this
    have hlt : b + k < source.length := by omega
    obtain ⟨_, hv⟩ := List.getElem?_eq_some.1 hnl
    rw [charAt_of_lt source (b + k) hlt, hv]
    refine ⟨b + k + 1, Or.inl ⟨b + k, by omega, hnl, ?_, rfl⟩, by omega, by omega, ?_, ?_⟩
    · intro j hj1 hj2
      have := hk3 (j - b) (by omega)
      rw [List.getElem?_drop] at this
      have hjb : b + (j - b) = j := by omega
      rwa [hjb] at this
    · simp
    · intro i hi
      rcases List.mem_append.1 hi with h | h
      · exact Nat.le_of_lt (hreads i h)
      · simp at h; omega
  · have hkeq : b + k = source.length := by omega
    rw [hkeq, charAt_length]
    refine ⟨source.length, Or.inr ⟨?_, rfl⟩, by omega, Nat.le_refl _, ?_, ?_⟩
    · intro j hj
      by_cases hjl : j < source.length
      · have := hk3 (j - b) (by omega)
        rw [List.getElem?_drop] at this
        have hjb : b + (j - b) = j := by omega
        rwa [hjb] at this
      · rw [List.getElem?_eq_none (by omega)]
        exact fun h => Option.noConfusion h
    · have hne : ¬ (Char.ofNat 0 = '\n') := by decide
      simp [hne]
    · intro i hi
      rcases List.mem_append.1 hi with h | h
      · exact Nat.le_of_lt (hreads i h)
      · simp at h; omega

/-- The offsets `findTyped` computes for a file that has a sigil
(`originalSigil` is not `None`): when "typed:" occurs in the source and a `#`
occurs at or before its first occurrence, the range returned is `[b, e)` where
`b` is the index of the nearest `#` at or before that occurrence and `e` is
one past the first line break at or after `b`, or the source length when no
line break follows; when "typed:" does not occur it is the empty range
`[0, 0)`. Nothing here says that `[b, e)` holds the "typed:" it was found
from. -/
theorem findTyped_sigil_range (source : List Char) (originalSigil : StrictLevel)
    (hs : originalSigil ≠ .None) :
    (∀ p, FirstOccurrence typedPattern source p →
      (∃ j, j ≤ p ∧ source[j]? = some '#') →
      ∃ b e, NearestHash source p b ∧ LineEnd source b e ∧ b ≤ e ∧ e ≤ source.length ∧
        (findTyped source originalSigil).result = .ok ⟨b, e⟩) ∧
    ((∃ q, OccursAt typedPattern source q) →
      ∃ p, FirstOccurrence typedPattern source p) ∧
    ((∀ q, ¬ OccursAt typedPattern source q) →
      findTyped source originalSigil = { reads := [], result := .ok ⟨0, 0⟩ }) := by
  have hft : findTyped source originalSigil = findSigil source := by
    unfold findTyped
    rw [if_neg hs]
  refine ⟨?_, ?_, ?_⟩
  · intro p hp hhash
    obtain ⟨b, hb⟩ := nearest_exists source p hhash
    obtain ⟨e, he, hbe, hel, hres, _⟩ := findSigil_of_first source p b hp hb
    exact ⟨b, e, hb, he, hbe, hel, by rw [hft]; exact hres⟩
  · rintro ⟨q, hq⟩
    exact first_of_occurs typedPattern source q hq
  · intro hno
    rw [hft]
    unfold findSigil find
    cases hf : findFrom typedPattern source 0 with
    | none => rfl
    | some p =>
      obtain ⟨k, _, hpre, _⟩ := findFrom_some typedPattern source 0 p hf
      exact absurd hpre (hno k)

/-- C17, the code at the failing inputs. For the 13 characters `# typed: true`
with no line break behind them, the forward scan stops at `end == 13` and the
test of line 183 then reads `source[13]`, the index `source.length()`. For a
source whose first "typed:" has no `#` before it, the backward scan reads
index 0, `--start` wraps to `SIZE_MAX` and `source[SIZE_MAX]` is read. So not
every index read is below the source length. -/
theorem findTyped_reads_outside_source :
    "# typed: true".data.length = 13 ∧
    findTyped "# typed: true".data .True =
      { reads := [2, 1, 0, 0, 1, 2, 3, 4, 5, 6, 7, 8, 9, 10, 11, 12, 13],
        result := .ok ⟨0, 13⟩ } ∧
    findTyped "typed: x\n# typed: true\n".data .True =
      { reads := [0, SIZE_MAX], result := .error (.outOfRange SIZE_MAX) } ∧
    ¬ (∀ (source : List Char) (originalSigil : StrictLevel),
        ∀ i ∈ (findTyped source originalSigil).reads, i < source.length) := by
  refine ⟨by decide, by decide, by decide, ?_⟩
  intro h
  exact absurd (h "# typed: true".data .True 13 (by decide)) (by decide)

/-! ## Theorems: the end of `realmain` with a null global state -/

/-- C6, the code at the failing input: in a run that ends with a null global
state and has a metrics file configured, the call `gs->hadCriticalError()` of
line 789 is made through the null pointer; the run ends there and no exit code
is returned, so it is not the case that every run with an absent global state
returns 10. No run with a null `gs` and a metrics file returns at all. A run
that does return yields 10 when the global state is absent or a critical error
was recorded. -/
theorem realmainTail_null_gs_crashes :
    realmainTail 0 none none { metricsFile := "metrics.json" } =
      .error (.nullDereference 789) ∧
    (∀ (returnCode : Int) (gsForMinimize : Option GlobalState) (opts : Options),
      ¬ (opts.metricsFile.isEmpty = false ∧
        ∃ r, realmainTail returnCode none gsForMinimize opts = .ok r)) ∧
    ¬ (∀ (returnCode : Int) (gs gsForMinimize : Option GlobalState) (opts : Options),
        (gs = none ∨ (∃ g, gs = some g ∧ g.hadCriticalError = true) ∨
          (∃ m, gsForMinimize = some m ∧ m.hadCriticalError = true)) →
        ∃ r, realmainTail returnCode gs gsForMinimize opts = .ok r ∧ r.exitCode = 10) ∧
    (∀ (returnCode : Int) (gs gsForMinimize : Option GlobalState) (opts : Options)
      (r : RunResult),
      realmainTail returnCode gs gsForMinimize opts = .ok r →
      (gs = none ∨ (∃ g, gs = some g ∧ g.hadCriticalError = true) ∨
        (∃ m, gsForMinimize = some m ∧ m.hadCriticalError = true)) →
      r.exitCode = 10) := by
  refine ⟨by decide, ?_, ?_, ?_⟩
  · rintro returnCode m opts ⟨hf, r, hr⟩
    simp [realmainTail, hf] at hr
  · intro h
    obtain ⟨r, hr, _⟩ := h 0 none none { metricsFile := "metrics.json" } (Or.inl rfl)
    have hcrash : realmainTail 0 none none { metricsFile := "metrics.json" } =
        .error (.nullDereference 789) := by decide
    rw [hcrash] at hr
    cases hr
  · intro returnCode gs m opts r hr hc
    have hexit : r.exitCode = exitStatus returnCode gs m opts := by
      unfold realmainTail at hr
      split at hr
      · cases gs with
        | none => cases hr
        | some g => cases hr; rfl
      · cases hr; rfl
    rw [hexit]
    exact exitStatus_critical returnCode gs m opts hc

/-- C15, the code at the failing input: the source has the lines `# c`,
`typed: x` and `# typed: true`, and `originalSigil` is `True`. The first
occurrence of "typed:" is at index 4 and the nearest `#` at or before it is at
index 0, on the line before, since the backward scan is not stopped by a line
break. `findTyped` returns `[0, 4)`, the comment `# c` with its line break:
the range ends where the "typed:" begins and is not the sigil comment, which
is `[13, 27)`. So the range does not always hold the "typed:" it was found
from. -/
theorem findTyped_returns_unrelated_comment :
    FirstOccurrence typedPattern crossLineSource 4 ∧
    NearestHash crossLineSource 4 0 ∧
    LineEnd crossLineSource 0 4 ∧
    findTyped crossLineSource .True =
      { reads := [4, 3, 2, 1, 0, 0, 1, 2, 3, 3], result := .ok ⟨0, 4⟩ } ∧
    crossLineSource.take 4 = "# c\n".data ∧
    crossLineSource.drop 13 = "# typed: true\n".data ∧
    ¬ (∀ (source : List Char) (originalSigil : StrictLevel) (p b e : Nat),
        originalSigil ≠ .None → FirstOccurrence typedPattern source p →
        NearestHash source p b →
        (findTyped source originalSigil).result = .ok ⟨(b : Int), (e : Int)⟩ → p < e) := by
  have hfirst : FirstOccurrence typedPattern crossLineSource 4 :=
    first_of_find _ _ 4 (by decide)
  have hnear : NearestHash crossLineSource 4 0 := by
    refine ⟨by decide, by decide, ?_⟩
    intro j h1 h2
    interval_cases j <;> decide
  have hline : LineEnd crossLineSource 0 4 := by
    refine Or.inl ⟨3, by decide, by decide, ?_, rfl⟩
    intro j _ h2
    interval_cases j <;> decide
  refine ⟨hfirst, hnear, hline, by decide, by decide, by decide, ?_⟩
  intro h
  exact absurd (h crossLineSource .True 4 0 4 (by decide) hfirst hnear (by decide)) (by decide)

end Sorbet
